import Mathlib

/-!
Verification development for the repodocs repository.

The definitions below are a shallow embedding of the client-side logic in
src/hooks/useDocGenerator.ts (and the FileNode type from
src/types/file-node.ts).  JavaScript objects used as string-keyed maps are
modelled as insertion-ordered association lists; `undefined` becomes
`Option`; code that can throw returns `Except`; asynchronous sequencing is
made explicit by threading state and recording an event trace.
-/

namespace Repodocs

/-- Node kind, as in the `type: 'file' | 'dir'` field of `FileNode`
(src/types/file-node.ts). -/
inductive NodeType where
  | file
  | dir
deriving DecidableEq, Repr

/-- Shallow embedding of `FileNode` (src/types/file-node.ts).  The
`children` field is `none` when absent (files), and `some []` for a
directory whose listing has not been fetched yet (fetchRepoContents seeds
directories with `children: []`). -/
inductive FileNode where
  | mk (name : String) (path : String) (type : NodeType)
       (children : Option (List FileNode)) (sha : Option String)

/-- The `path` field of a node. -/
def FileNode.path : FileNode → String
  | .mk _ p _ _ _ => p

/-- The `type` field of a node. -/
def FileNode.type : FileNode → NodeType
  | .mk _ _ t _ _ => t

/-- The `children` field of a node. -/
def FileNode.children : FileNode → Option (List FileNode)
  | .mk _ _ _ c _ => c

/-- A JavaScript object used as a `{ [path: string]: boolean }` selection
map (`FileSelection` in useDocGenerator.ts): an insertion-ordered
association list with unique keys. -/
def SelMap : Type := List (String × Bool)

/-- Property read `sel[p]`: `some b` when the key is present, `none` for
`undefined`. -/
def lookupFlag : SelMap → String → Option Bool
  | [], _ => none
  | (k, v) :: rest, p => if k = p then some v else lookupFlag rest p

/-- Property write `sel[p] = b`: overwrites in place when the key exists,
appends otherwise (JavaScript object assignment). -/
def setFlag : SelMap → String → Bool → SelMap
  | [], p, b => [(p, b)]
  | (k, v) :: rest, p, b =>
      if k = p then (k, b) :: rest else (k, v) :: setFlag rest p b

/-- Paths of all descendant file nodes of a node list, in traversal order:
a `file` node contributes its own path, a `dir` node contributes the files
of its `children` when that field is present (the traversals in
useDocGenerator.ts descend into `item.children` exactly when it is
defined). -/
def nodesFilePaths : List FileNode → List String
  | [] => []
  | .mk _ p .file _ _ :: rest => p :: nodesFilePaths rest
  | .mk _ _ .dir none _ :: rest => nodesFilePaths rest
  | .mk _ _ .dir (some cs) _ :: rest => nodesFilePaths cs ++ nodesFilePaths rest
termination_by ns => sizeOf ns
decreasing_by all_goals (simp_wf; try omega)

/-- The recursive `traverse` of `getFolderSelectionState`
(useDocGenerator.ts lines 554-567): accumulates the pair
`(hasSelectedFile, hasUnselectedFile)`.  A file with flag `true` sets the
first component, a file with flag explicitly `false` sets the second, and
a file absent from the map (`undefined`) sets neither. -/
def scanSel (sel : SelMap) : Bool × Bool → List FileNode → Bool × Bool
  | acc, [] => acc
  | acc, .mk _ p .file _ _ :: rest =>
      scanSel sel
        (match lookupFlag sel p with
         | some true => (true, acc.2)
         | some false => (acc.1, true)
         | none => acc) rest
  | acc, .mk _ _ .dir none _ :: rest => scanSel sel acc rest
  | acc, .mk _ _ .dir (some cs) _ :: rest =>
      scanSel sel (scanSel sel acc cs) rest
termination_by _ ns => sizeOf ns
decreasing_by all_goals (simp_wf; try omega)

/-- Tri-state folder selection value: the source returns `true`
(selected), `false` (unselected) or the string `'indeterminate'`. -/
inductive TriState where
  | selected
  | unselected
  | indeterminate
deriving DecidableEq, Repr

/-- Embedding of `getFolderSelectionState` (useDocGenerator.ts lines
548-573): empty or missing node list returns unselected; otherwise both a
selected and an unselected file give indeterminate, a selected file with
no unselected one gives selected, and anything else gives unselected. -/
def getFolderSelectionState (sel : SelMap) (nodes : List FileNode) : TriState :=
  if nodes.isEmpty then .unselected
  else
    let scan := scanSel sel (false, false) nodes
    if scan.1 && scan.2 then .indeterminate
    else if scan.1 && !scan.2 then .selected
    else .unselected

/-- Character class `[a-zA-Z0-9-]` of the owner segment of the
`repoFormSchema` pattern (useDocGenerator.ts line 14). -/
def isOwnerChar (c : Char) : Bool :=
  c.isAlpha || c.isDigit || c = '-'

/-- Character class `[a-zA-Z0-9-._]` of the repository-name segment of the
`repoFormSchema` pattern (useDocGenerator.ts line 14). -/
def isNameChar (c : Char) : Bool :=
  c.isAlpha || c.isDigit || c = '-' || c = '.' || c = '_'

/-- Matcher for the anchored pattern
regex `^[a-zA-Z0-9-]+\/[a-zA-Z0-9-._]+$` of `repoFormSchema`
(useDocGenerator.ts line 14): one nonempty owner segment over
`isOwnerChar`, one slash, one nonempty name segment over `isNameChar`.
Since neither class contains a slash, taking characters up to the first
slash is exhaustive. -/
def repoRegexTest (s : String) : Bool :=
  match s.toList.dropWhile (fun c => c ≠ '/') with
  | '/' :: name =>
      !(s.toList.takeWhile (fun c => c ≠ '/')).isEmpty &&
      (s.toList.takeWhile (fun c => c ≠ '/')).all isOwnerChar &&
      !name.isEmpty && name.all isNameChar
  | _ => false

/-- Validation of the `repoPath` form field (useDocGenerator.ts lines
12-17): `z.string().min(1).refine(regex)` accepts exactly the nonempty
strings matching the pattern. -/
def repoFormAccepts (s : String) : Bool :=
  decide (1 ≤ s.length) && repoRegexTest s

/-- Claim predicate, written from the words of the spec (for comparison
with `repoFormAccepts`, not from the source): both the owner segment and
the name segment consist of alphanumerics, hyphens, dots and underscores. -/
def specClaimAccepts (s : String) : Bool :=
  match s.toList.dropWhile (fun c => c ≠ '/') with
  | '/' :: name =>
      !(s.toList.takeWhile (fun c => c ≠ '/')).isEmpty &&
      (s.toList.takeWhile (fun c => c ≠ '/')).all isNameChar &&
      !name.isEmpty && name.all isNameChar
  | _ => false

/-- The selection-map part of `updateTreeWithNewNodes` (useDocGenerator.ts
lines 265-271): for each `file` node of the incoming listing the map entry
is assigned `newRepoSelection[node.path] || false`, so an existing flag
keeps its value and a missing one is seeded to `false`. -/
def mergeSelection (sel : SelMap) (nodes : List FileNode) : SelMap :=
  nodes.foldl
    (fun s n =>
      match n with
      | .mk _ p .file _ _ => setFlag s p ((lookupFlag s p).getD false)
      | _ => s)
    sel

/-- The recursive `updateChildren` of `updateTreeWithNewNodes`
(useDocGenerator.ts lines 279-289): the node whose path equals
`parentPath` has its children replaced by `nodes`; other nodes with a
nonempty children list are rewritten recursively; everything else is kept. -/
def updateChildren (parentPath : String) (nodes : List FileNode) :
    List FileNode → List FileNode
  | [] => []
  | .mk nm p t c sh :: rest =>
      (if p = parentPath then FileNode.mk nm p t (some nodes) sh
       else
         match c with
         | some cs =>
             if cs.length > 0 then
               FileNode.mk nm p t (some (updateChildren parentPath nodes cs)) sh
             else FileNode.mk nm p t c sh
         | none => FileNode.mk nm p t c sh)
      :: updateChildren parentPath nodes rest
termination_by items => sizeOf items
decreasing_by all_goals (simp_wf; try omega)

/-- Embedding of `updateTreeWithNewNodes` (useDocGenerator.ts lines
264-293): returns the new tree and the new selection map for the
repository.  Without a parent path the listing replaces the root forest;
with one it replaces that directory's children inside the existing tree. -/
def updateTreeWithNewNodes (tree : List FileNode) (sel : SelMap)
    (nodes : List FileNode) (parentPath : Option String) :
    List FileNode × SelMap :=
  let sel' := mergeSelection sel nodes
  match parentPath with
  | none => (nodes, sel')
  | some pp => (updateChildren pp nodes tree, sel')

/-- Events of the asynchronous traversal performed by
`toggleFolderSelection` (useDocGenerator.ts lines 506-531): a directory
fetch through `handleFetchRepoStructure` together with its result (`none`
when the fetch failed), an assignment to the local selection map, and the
final `setFileSelection` commit. -/
inductive TravEvent where
  | fetchDir (path : String) (result : Option (List FileNode))
  | flagSet (path : String) (value : Bool)
  | commit

/-- The fetch guard of `toggleFolderSelection` (useDocGenerator.ts line
515): `isSelected && (!childrenToTraverse || childrenToTraverse.length ===
0) && !loadedPaths[repoPath]?.[item.path]`. -/
def needsFetch (loaded : String → Bool) (isSel : Bool) (p : String)
    (ch : Option (List FileNode)) : Bool :=
  isSel && (match ch with | none => true | some cs => cs.isEmpty) && !loaded p

/-- One layer of the recursive `traverse` inside `toggleFolderSelection`
(useDocGenerator.ts lines 509-526).  `world` is the fetch oracle
(`handleFetchRepoStructure` through cache and provider; `none` models a
failed fetch), `loaded` is `loadedPaths[repoPath]`.  Descents into
children already present in the tree are structural; descents into
freshly fetched children go through `recurse`, which the fuelled wrapper
`travList` ties back to the traversal itself. -/
def travGo (world : String → Option (List FileNode)) (loaded : String → Bool)
    (isSel : Bool)
    (recurse : SelMap → List FileNode → SelMap × List TravEvent) :
    SelMap → List FileNode → SelMap × List TravEvent
  | sel, [] => (sel, [])
  | sel, .mk _ p .file _ _ :: rest =>
      let r := travGo world loaded isSel recurse (setFlag sel p isSel) rest
      (r.1, .flagSet p isSel :: r.2)
  | sel, .mk _ p .dir ch _ :: rest =>
      if needsFetch loaded isSel p ch then
        match world p with
        | some cs =>
            let r1 := recurse sel cs
            let r2 := travGo world loaded isSel recurse r1.1 rest
            (r2.1, .fetchDir p (some cs) :: (r1.2 ++ r2.2))
        | none =>
            let r2 := travGo world loaded isSel recurse sel rest
            (r2.1, .fetchDir p none :: r2.2)
      else
        match ch with
        | some cs =>
            let r1 := travGo world loaded isSel recurse sel cs
            let r2 := travGo world loaded isSel recurse r1.1 rest
            (r2.1, r1.2 ++ r2.2)
        | none => travGo world loaded isSel recurse sel rest
termination_by _ items => sizeOf items
decreasing_by all_goals (simp_wf; try omega)

/-- The full traversal of `toggleFolderSelection`, with the non-structural
recursion through provider-fetched children bounded by `fuel`; when the
fuel runs out a fetched subtree is skipped.  The JavaScript original has
no such bound; all theorems below hold for every fuel value. -/
def travList (world : String → Option (List FileNode)) (loaded : String → Bool)
    (isSel : Bool) : Nat → SelMap → List FileNode → SelMap × List TravEvent
  | 0, sel, items =>
      travGo world loaded isSel (fun s _ => (s, [])) sel items
  | fuel + 1, sel, items =>
      travGo world loaded isSel (travList world loaded isSel fuel) sel items

/-- Embedding of `toggleFolderSelection` (useDocGenerator.ts lines
506-531): the traversal mutates a local copy of the selection map, and
only after `traverse(nodes)` resolves is the aggregate map committed by
`setFileSelection`. -/
def toggleFolderSelection (world : String → Option (List FileNode))
    (loaded : String → Bool) (sel : SelMap) (nodes : List FileNode)
    (isSel : Bool) (fuel : Nat) : SelMap × List TravEvent :=
  let r := travList world loaded isSel fuel sel nodes
  (r.1, r.2 ++ [TravEvent.commit])

/-- File paths delivered by the successful directory fetches of a trace. -/
def deliveredFiles : List TravEvent → List String
  | [] => []
  | .fetchDir _ (some cs) :: rest => nodesFilePaths cs ++ deliveredFiles rest
  | _ :: rest => deliveredFiles rest

/-- Fetch-before-flag discipline of a trace: every `flagSet` names a path
already known, where the known set starts from the files visible in the
initial forest and grows exactly when a directory fetch delivers its
listing. -/
def traceOk : List String → List TravEvent → Prop
  | _, [] => True
  | known, .flagSet p _ :: rest => p ∈ known ∧ traceOk known rest
  | known, .fetchDir _ (some cs) :: rest =>
      traceOk (known ++ nodesFilePaths cs) rest
  | known, .fetchDir _ none :: rest => traceOk known rest
  | known, .commit :: rest => traceOk known rest

/-- Paths of the directories the traversal of `toggleFolderSelection`
must fetch, at every depth of a forest: a directory needing a fetch
(empty or absent children and not loaded) contributes its own path; one
not needing a fetch is descended into exactly when its children are
present, as the traversal does. -/
def unfetchedDirs (loaded : String → Bool) (isSel : Bool) :
    List FileNode → List String
  | [] => []
  | .mk _ _ .file _ _ :: rest => unfetchedDirs loaded isSel rest
  | .mk _ p .dir ch _ :: rest =>
      (if needsFetch loaded isSel p ch then [p]
       else
         match ch with
         | some cs => unfetchedDirs loaded isSel cs
         | none => []) ++ unfetchedDirs loaded isSel rest
termination_by items => sizeOf items
decreasing_by all_goals (simp_wf; try omega)

/-- Completeness flag of one traversal layer: true when no descent into
freshly fetched children was cut off.  `recurseOk` reports completeness of
the fuelled descents; the traversal path does not depend on the selection
map, so the flag needs none. -/
def travGoOk (world : String → Option (List FileNode)) (loaded : String → Bool)
    (isSel : Bool) (recurseOk : List FileNode → Bool) : List FileNode → Bool
  | [] => true
  | .mk _ _ .file _ _ :: rest => travGoOk world loaded isSel recurseOk rest
  | .mk _ p .dir ch _ :: rest =>
      (if needsFetch loaded isSel p ch then
        match world p with
        | some cs => recurseOk cs
        | none => true
       else
         match ch with
         | some cs => travGoOk world loaded isSel recurseOk cs
         | none => true) && travGoOk world loaded isSel recurseOk rest
termination_by items => sizeOf items
decreasing_by all_goals (simp_wf; try omega)

/-- Completeness of the fuelled traversal `travList`: true when the fuel
bound never truncated a descent into freshly fetched children.  The
JavaScript recursion carries no bound, so every terminating run of the
source traversal coincides with the model at any sufficiently large fuel,
where this flag holds. -/
def travListOk (world : String → Option (List FileNode))
    (loaded : String → Bool) (isSel : Bool) : Nat → List FileNode → Bool
  | 0, items => travGoOk world loaded isSel (fun _ => false) items
  | fuel + 1, items =>
      travGoOk world loaded isSel (travListOk world loaded isSel fuel) items

/-- Generic string-keyed association lookup (JavaScript object read). -/
def assocGet {α : Type} : List (String × α) → String → Option α
  | [], _ => none
  | (k, v) :: rest, key => if k = key then some v else assocGet rest key

/-- Generic string-keyed association write: replace in place or append. -/
def assocSet {α : Type} : List (String × α) → String → α → List (String × α)
  | [], key, v => [(key, v)]
  | (k, w) :: rest, key, v =>
      if k = key then (k, v) :: rest else (k, w) :: assocSet rest key v

/-- Parsed body of a provider file response, as consumed by
`fetchFileContent`: the `encoding` and `content` fields. -/
structure ContentResponse where
  encoding : String
  content : String

/-- Embedding of `fetchFileContent` (useDocGenerator.ts lines 78-91).
`api` is the outcome of `fetchFromGitHubApi` (an `Error` when the request
failed) and `atob` is the base64 decoder, `none` when it would throw.  The
try/catch makes the function total: every failure path returns a sentinel
string instead of raising. -/
def fetchFileContent (atob : String → Option String)
    (api : Except String ContentResponse) (path : String) : String :=
  match api with
  | .error _ => "Error fetching content for " ++ path ++ "."
  | .ok r =>
      if r.encoding = "base64" then
        match atob r.content with
        | some s => s
        | none => "Error fetching content for " ++ path ++ "."
      else "Could not decode file content."

/-- One entry of `selectedFilesToFetch` (useDocGenerator.ts lines
361-368). -/
structure SelFile where
  repoPath : String
  path : String
deriving DecidableEq, Repr

/-- The `filePath` string built for a selected file (line 372). -/
def SelFile.filePath (f : SelFile) : String := f.repoPath ++ "/" ++ f.path

/-- The file-content cache key (line 373). -/
def SelFile.cacheKey (f : SelFile) : String :=
  "file-content-cache-" ++ f.filePath

/-- Cached value for a file-content key: the `{ content, size }` object
written at line 388. -/
structure CacheEntry where
  content : String
  size : Nat
deriving DecidableEq, Repr

/-- The file-content cache as seen through getCachedData/setCachedData;
storage-level failures are modelled separately by `getCachedData` below. -/
def Cache : Type := List (String × CacheEntry)

/-- Events of one generation run (`confirmAndGenerate`): stage-1
resolution of each selected file (cache hit, provider fetch, or provider
failure), one summarization call per fetched file, and the single
synthesis call. -/
inductive PipeEvent where
  | cacheHit (filePath : String)
  | apiFetch (filePath : String)
  | apiError (filePath : String) (msg : String)
  | summarizeCall (filePath : String)
  | synthesizeCall
deriving DecidableEq, Repr

/-- Result of the stage-1 loop of `confirmAndGenerate` (lines 370-400). -/
structure FetchResult where
  fetched : List (String × String)
  cache : Cache
  logs : List String
  events : List PipeEvent

/-- The cache-hit test of the stage-1 loop (useDocGenerator.ts line 377):
the truthiness check `cachedContent && cachedContent.content` accepts only
a present entry whose content is a nonempty string. -/
def cacheHitEntry (cache : Cache) (f : SelFile) : Option CacheEntry :=
  match assocGet cache f.cacheKey with
  | some e => if e.content = "" then none else some e
  | none => none

/-- Embedding of the stage-1 content loop of `confirmAndGenerate`
(useDocGenerator.ts lines 370-400).  `fetcher` is the body of the `try`
(`fetchFileContent` plus the size computation); an `.error` outcome is the
`catch` branch, which logs the failure and moves on. -/
def fetchStage (fetcher : SelFile → Except String String) :
    Cache → List SelFile → FetchResult
  | cache, [] => ⟨[], cache, [], []⟩
  | cache, f :: rest =>
      match cacheHitEntry cache f with
      | some e =>
          let r := fetchStage fetcher cache rest
          ⟨(f.filePath, e.content) :: r.fetched, r.cache,
           ("  [CACHE] Using cached content for " ++ f.filePath ++ ".") :: r.logs,
           .cacheHit f.filePath :: r.events⟩
      | none =>
          match fetcher f with
          | .ok c =>
              let r := fetchStage fetcher
                (assocSet cache f.cacheKey ⟨c, c.utf8ByteSize⟩) rest
              ⟨(f.filePath, c) :: r.fetched, r.cache,
               ("  [API] Fetching " ++ f.filePath ++ "...") :: r.logs,
               .apiFetch f.filePath :: r.events⟩
          | .error m =>
              let r := fetchStage fetcher cache rest
              ⟨r.fetched, r.cache,
               ("  [API] Fetching " ++ f.filePath ++ "...") ::
                 ("  [ERROR] Failed to fetch " ++ f.filePath ++ ": " ++ m) :: r.logs,
               .apiError f.filePath m :: r.events⟩

/-- Embedding of the summarization loop (useDocGenerator.ts lines
422-447): one AI call per fetched file in order, pushing one summary per
call; a failed call throws out of the loop, so no further call is made. -/
def summarizeStage {σ : Type} (summarize : String → String → Except String σ) :
    List (String × String) → List PipeEvent × Except String (List σ)
  | [] => ([], .ok [])
  | (p, c) :: rest =>
      match summarize p c with
      | .error e => ([.summarizeCall p], .error e)
      | .ok s =>
          let r := summarizeStage summarize rest
          (.summarizeCall p :: r.1, (r.2).map (fun l => s :: l))

/-- Typed failure of a generation run: the early return when no content
was fetched (lines 404-412), a thrown summarization/synthesis error
caught at line 481, and the empty-document throw at line 479. -/
inductive RunError where
  | noContentFetched
  | generationFailed (msg : String)
  | emptyDocument
deriving DecidableEq, Repr

/-- Observable outcome of one `confirmAndGenerate` run: the final
`documentation` state, the failure if any, the stage-1 artifacts, the
event trace, and what the synthesis call received and returned (`none`
when synthesis was never reached). -/
structure RunResult (σ : Type) where
  documentation : Option String
  error : Option RunError
  fetched : List (String × String)
  cache : Cache
  logs : List String
  events : List PipeEvent
  synthInput : Option (List σ)
  synthOutput : Option (Except String (Option String))

/-- Embedding of `confirmAndGenerate` (useDocGenerator.ts lines 347-494).
Stage 1 resolves every selected file; if nothing was fetched the run
stops before any AI call.  Stage 2 summarizes each fetched file in order;
a failure aborts the run before synthesis.  Stage 3 issues one synthesis
call whose parsed `documentation` field must be present and nonempty
(`if (finalResponse.documentation)`), otherwise the run fails with the
empty-document error and `documentation` stays `null`. -/
def confirmAndGenerate {σ : Type}
    (summarize : String → String → Except String σ)
    (synthesize : List σ → Except String (Option String))
    (fetcher : SelFile → Except String String)
    (cache : Cache) (selected : List SelFile) : RunResult σ :=
  let st1 := fetchStage fetcher cache selected
  if st1.fetched.isEmpty then
    ⟨none, some .noContentFetched, st1.fetched, st1.cache, st1.logs,
     st1.events, none, none⟩
  else
    let st2 := summarizeStage summarize st1.fetched
    match st2.2 with
    | .error m =>
        ⟨none, some (.generationFailed m), st1.fetched, st1.cache, st1.logs,
         st1.events ++ st2.1, none, none⟩
    | .ok summaries =>
        match synthesize summaries with
        | .error m =>
            ⟨none, some (.generationFailed m), st1.fetched, st1.cache,
             st1.logs, st1.events ++ st2.1 ++ [.synthesizeCall],
             some summaries, some (.error m)⟩
        | .ok docField =>
            match docField with
            | some d =>
                if d = "" then
                  ⟨none, some .emptyDocument, st1.fetched, st1.cache,
                   st1.logs, st1.events ++ st2.1 ++ [.synthesizeCall],
                   some summaries, some (.ok (some d))⟩
                else
                  ⟨some d, none, st1.fetched, st1.cache, st1.logs,
                   st1.events ++ st2.1 ++ [.synthesizeCall],
                   some summaries, some (.ok (some d))⟩
            | none =>
                ⟨none, some .emptyDocument, st1.fetched, st1.cache,
                 st1.logs, st1.events ++ st2.1 ++ [.synthesizeCall],
                 some summaries, some (.ok none)⟩

/-- The stage-1 fetcher actually installed by `confirmAndGenerate`
(line 385): the never-throwing `fetchFileContent` applied to the provider
response for the file. -/
def githubFetcher (atob : String → Option String)
    (api : SelFile → Except String ContentResponse) (f : SelFile) :
    Except String String :=
  .ok (fetchFileContent atob (api f) f.path)

/-- The raw browser store behind getCachedData/setCachedData: string keys
to serialized string values. -/
def Store : Type := List (String × String)

/-- Outcome of a `getCachedData` call: the value returned to the caller,
the store afterwards, and the console log entries emitted. -/
structure ReadOutcome (α : Type) where
  result : Option α
  store : Store
  logs : List String

/-- Embedding of `getCachedData` (useDocGenerator.ts lines 160-167).
`parse` models `JSON.parse` (`none` when it would throw) and `readOk`
models whether `localStorage.getItem` itself succeeds.  Both failure
paths fall into the `catch`, which logs and returns `undefined`; nothing
is ever removed from the store. -/
def getCachedData {α : Type} (parse : String → Option α) (readOk : Bool)
    (store : Store) (key : String) : ReadOutcome α :=
  if !readOk then ⟨none, store, ["Failed to read from local storage:"]⟩
  else
    match assocGet store key with
    | none => ⟨none, store, []⟩
    | some raw =>
        match parse raw with
        | some v => ⟨some v, store, []⟩
        | none => ⟨none, store, ["Failed to read from local storage:"]⟩

/-- Outcome of a `setCachedData` call. -/
structure WriteOutcome where
  store : Store
  logs : List String

/-- Embedding of `setCachedData` (useDocGenerator.ts lines 169-175):
`writeOk` models whether `localStorage.setItem` succeeds (it throws on
quota exhaustion); the failure is caught, logged and swallowed. -/
def setCachedData (writeOk : Bool) (store : Store) (key raw : String) :
    WriteOutcome :=
  if writeOk then ⟨assocSet store key raw, []⟩
  else ⟨store, ["Failed to write to local storage:"]⟩

/-- Selection map used by the concrete folder-selection examples: file
path `a` is explicitly selected, file path `b` has no entry at all. -/
def cexSel : SelMap := [("a", true)]

/-- Node list used by the concrete folder-selection examples: two files,
one with an explicit `true` flag and one absent from the map. -/
def cexNodes : List FileNode :=
  [.mk "a" "a" .file none none, .mk "b" "b" .file none none]

/-- Paths of the file nodes directly in a listing (the `nodes.forEach` of
`updateTreeWithNewNodes` looks only at the top level of the incoming
listing). -/
def listedFilePaths : List FileNode → List String
  | [] => []
  | .mk _ p .file _ _ :: rest => p :: listedFilePaths rest
  | _ :: rest => listedFilePaths rest

/-- Whether an event belongs to the stage-1 content-fetch loop. -/
def PipeEvent.isStage1 : PipeEvent → Bool
  | .cacheHit _ => true
  | .apiFetch _ => true
  | .apiError _ _ => true
  | .summarizeCall _ => false
  | .synthesizeCall => false

/-- Whether an event is a summarization call. -/
def PipeEvent.isSummarize : PipeEvent → Bool
  | .summarizeCall _ => true
  | _ => false

/- ------------------------------------------------------------------ -/
/- Theorems                                                           -/
/- ------------------------------------------------------------------ -/

/-- The scan of `getFolderSelectionState` computes, over the descendant
file paths, whether some flag is explicitly true and whether some flag is
explicitly false. -/
theorem scanSel_eq (sel : SelMap) (acc : Bool × Bool) (ns : List FileNode) :
    scanSel sel acc ns =
      (acc.1 || (nodesFilePaths ns).any (fun p => lookupFlag sel p == some true),
       acc.2 || (nodesFilePaths ns).any (fun p => lookupFlag sel p == some false)) := by
  induction acc, ns using scanSel.induct sel with
  | case1 acc => simp [scanSel, nodesFilePaths]
  | case2 acc nm p ch sh rest ih =>
      rcases h : lookupFlag sel p with _ | b
      · simp only [h] at ih
        simp only [scanSel, nodesFilePaths, h, List.any_cons]
        rw [ih]
        simp
      · cases b <;>
        · simp only [h] at ih
          simp only [scanSel, nodesFilePaths, h, List.any_cons]
          rw [ih]
          simp
  | case3 acc nm ch sh rest ih =>
      simp only [scanSel, nodesFilePaths] at ih ⊢
      rw [ih]
  | case4 acc nm p cs sh rest ih1 ih2 =>
      simp only [scanSel, nodesFilePaths, List.any_append]
      rw [ih2, ih1]
      simp [Bool.or_assoc]

/-- C1 (amended): `getFolderSelectionState` returns selected exactly when
some descendant file flag is explicitly true and none is explicitly
false; unselected exactly when no flag is explicitly true (so also for
zero descendant files); indeterminate exactly when an explicit true and
an explicit false flag both occur.  Files absent from the selection map
are ignored by the scan, not counted as unselected. -/
theorem folderSelectionState_tristate (sel : SelMap) (nodes : List FileNode) :
    (getFolderSelectionState sel nodes = .selected ↔
      (∃ p ∈ nodesFilePaths nodes, lookupFlag sel p = some true) ∧
        ¬ ∃ p ∈ nodesFilePaths nodes, lookupFlag sel p = some false) ∧
    (getFolderSelectionState sel nodes = .unselected ↔
      ¬ ∃ p ∈ nodesFilePaths nodes, lookupFlag sel p = some true) ∧
    (getFolderSelectionState sel nodes = .indeterminate ↔
      (∃ p ∈ nodesFilePaths nodes, lookupFlag sel p = some true) ∧
        ∃ p ∈ nodesFilePaths nodes, lookupFlag sel p = some false) := by
  have eT : (∃ p ∈ nodesFilePaths nodes, lookupFlag sel p = some true) ↔
      ((nodesFilePaths nodes).any (fun p => lookupFlag sel p == some true) = true) := by
    simp [List.any_eq_true]
  have eF : (∃ p ∈ nodesFilePaths nodes, lookupFlag sel p = some false) ↔
      ((nodesFilePaths nodes).any (fun p => lookupFlag sel p == some false) = true) := by
    simp [List.any_eq_true]
  rw [eT, eF]
  by_cases hn : nodes.isEmpty
  · have hnil : nodes = [] := by cases nodes <;> simp_all
    subst hnil
    simp [getFolderSelectionState, nodesFilePaths]
  · simp only [getFolderSelectionState, hn, Bool.false_eq_true, if_false,
      scanSel_eq, Bool.false_or]
    rcases hT : (nodesFilePaths nodes).any (fun p => lookupFlag sel p == some true) <;>
      rcases hF : (nodesFilePaths nodes).any (fun p => lookupFlag sel p == some false) <;>
        simp

/-- C1 counterexample: with file `a` flagged true and file `b` absent from
the selection map, the code returns selected although not every descendant
file flag is true — the claim as stated would require indeterminate here. -/
theorem folderSelectionState_claim_counterexample :
    getFolderSelectionState cexSel cexNodes = TriState.selected ∧
      ¬ ∀ p ∈ nodesFilePaths cexNodes, lookupFlag cexSel p = some true := by
  constructor
  · simp [getFolderSelectionState, cexSel, cexNodes, scanSel, nodesFilePaths, lookupFlag]
  · intro h
    have hb := h "b" (by simp [cexNodes, nodesFilePaths])
    simp [cexSel, lookupFlag] at hb

/-- Witness for the amended C1 theorem at a concrete input. -/
theorem folderSelectionState_tristate_witness :
    getFolderSelectionState cexSel cexNodes = TriState.selected :=
  (folderSelectionState_tristate cexSel cexNodes).1.mpr
    ⟨⟨"a", by simp [cexNodes, nodesFilePaths], by simp [cexSel, lookupFlag]⟩,
     by
      rintro ⟨p, hp, hfalse⟩
      simp [cexNodes, nodesFilePaths] at hp
      rcases hp with rfl | rfl <;> simp [cexSel, lookupFlag] at hfalse⟩

/-- A character of the owner class is not a slash. -/
theorem isOwnerChar_ne_slash {c : Char} (h : isOwnerChar c = true) :
    (decide (c ≠ '/') : Bool) = true := by
  by_contra hc
  simp at hc
  subst hc
  exact absurd h (by decide)

/-- Splitting a list at a marked element: when every element of the prefix
satisfies the predicate and the marker does not, `takeWhile` returns the
prefix and `dropWhile` returns the marker and the tail. -/
theorem takeWhile_all_append {α : Type} (p : α → Bool) (o : List α) (x : α)
    (n : List α) (ho : ∀ c ∈ o, p c = true) (hx : p x = false) :
    (o ++ x :: n).takeWhile p = o ∧ (o ++ x :: n).dropWhile p = x :: n := by
  induction o with
  | nil => simp [List.takeWhile_cons, List.dropWhile_cons, hx]
  | cons c o ih =>
      have hc : p c = true := ho c (by simp)
      have ho' : ∀ d ∈ o, p d = true := fun d hd => ho d (by simp [hd])
      obtain ⟨h1, h2⟩ := ih ho'
      simp [List.takeWhile_cons, List.dropWhile_cons, hc, h1, h2]

/-- C2 (amended): the form accepts a repository path exactly when it is
`owner/name` with a nonempty owner over alphanumerics and hyphens only,
and a nonempty name over alphanumerics, hyphens, dots and underscores. -/
theorem repoFormAccepts_iff (s : String) :
    repoFormAccepts s = true ↔
      ∃ o n : List Char, s.toList = o ++ '/' :: n ∧ o ≠ [] ∧ n ≠ [] ∧
        o.all isOwnerChar = true ∧ n.all isNameChar = true := by
  constructor
  · intro h
    have h' := h
    unfold repoFormAccepts at h'
    rw [Bool.and_eq_true] at h'
    have hr := h'.2
    unfold repoRegexTest at hr
    split at hr
    · next name heq =>
        simp only [Bool.and_eq_true, Bool.not_eq_eq_eq_not, Bool.not_true,
          List.isEmpty_eq_false] at hr
        obtain ⟨⟨⟨hoe, hoa⟩, hne⟩, hna⟩ := hr
        refine ⟨s.toList.takeWhile (fun c => decide (c ≠ '/')), name, ?_, hoe, hne, hoa, hna⟩
        conv_lhs => rw [← List.takeWhile_append_dropWhile (p := fun c => decide (c ≠ '/')) (l := s.toList)]
        rw [heq]
    · simp at hr
  · rintro ⟨o, n, hs, ho, hn, hallo, halln⟩
    have hoall : ∀ c ∈ o, (fun c => decide (c ≠ '/')) c = true := by
      intro c hc
      exact isOwnerChar_ne_slash (List.all_eq_true.mp hallo c hc)
    obtain ⟨ht, hd⟩ :=
      takeWhile_all_append (fun c => decide (c ≠ '/')) o '/' n hoall (by simp)
    have hlen : 1 ≤ s.length := by
      have hsl : s.toList.length = s.length := rfl
      rw [← hsl, hs]
      simp
      omega
    unfold repoFormAccepts repoRegexTest
    rw [hs, ht, hd]
    simp [hlen, ho, hn, hallo, halln]

/-- C2 counterexample: `a.b/c` has the claimed `owner/name` shape with
both segments inside the claimed character class, yet the form rejects it
because the owner class of the actual pattern has no dot. -/
theorem repoForm_claim_counterexample :
    specClaimAccepts "a.b/c" = true ∧ repoFormAccepts "a.b/c" = false := by
  constructor <;> rfl

/-- Witness for the amended C2 theorem at a concrete accepted input. -/
theorem repoFormAccepts_iff_witness :
    ∃ o n : List Char, "my-org/repo_1.rs".toList = o ++ '/' :: n ∧ o ≠ [] ∧
      n ≠ [] ∧ o.all isOwnerChar = true ∧ n.all isNameChar = true :=
  (repoFormAccepts_iff "my-org/repo_1.rs").mp (by rfl)

/-- Reading back the key just written. -/
theorem lookupFlag_setFlag_self (s : SelMap) (p : String) (b : Bool) :
    lookupFlag (setFlag s p b) p = some b := by
  induction s with
  | nil => simp [setFlag, lookupFlag]
  | cons kv rest ih =>
      obtain ⟨k, v⟩ := kv
      by_cases h : k = p <;> simp [setFlag, lookupFlag, h, ih]

/-- Writing one key does not change the value read at another. -/
theorem lookupFlag_setFlag_ne (s : SelMap) {p q : String} (b : Bool)
    (h : p ≠ q) : lookupFlag (setFlag s p b) q = lookupFlag s q := by
  induction s with
  | nil => simp [setFlag, lookupFlag, h]
  | cons kv rest ih =>
      obtain ⟨k, v⟩ := kv
      by_cases hk : k = p
      · subst hk
        simp [setFlag, lookupFlag, h]
      · simp only [setFlag, if_neg hk, lookupFlag]
        split <;> simp [ih]

/-- Writing back the value a key already has is a no-op on the map. -/
theorem setFlag_self_of_lookup (s : SelMap) {p : String} {v : Bool}
    (h : lookupFlag s p = some v) : setFlag s p v = s := by
  induction s with
  | nil => simp [lookupFlag] at h
  | cons kv rest ih =>
      obtain ⟨k, w⟩ := kv
      by_cases hk : k = p
      · subst hk
        simp [lookupFlag] at h
        simp [setFlag, h]
      · simp [lookupFlag, hk] at h
        simp [setFlag, hk, ih h]

/-- Unfolding one file node of the merge. -/
theorem mergeSelection_cons_file (sel : SelMap) (nm q : String)
    (c : Option (List FileNode)) (sh : Option String) (rest : List FileNode) :
    mergeSelection sel (.mk nm q .file c sh :: rest) =
      mergeSelection (setFlag sel q ((lookupFlag sel q).getD false)) rest := rfl

/-- Unfolding one directory node of the merge. -/
theorem mergeSelection_cons_dir (sel : SelMap) (nm q : String)
    (c : Option (List FileNode)) (sh : Option String) (rest : List FileNode) :
    mergeSelection sel (.mk nm q .dir c sh :: rest) = mergeSelection sel rest := rfl

/-- A flag present before the merge keeps its value. -/
theorem mergeSelection_lookup_some (nodes : List FileNode) :
    ∀ (sel : SelMap) (p : String) (v : Bool), lookupFlag sel p = some v →
      lookupFlag (mergeSelection sel nodes) p = some v := by
  induction nodes with
  | nil =>
      intro sel p v h
      simpa [mergeSelection] using h
  | cons n rest ih =>
      intro sel p v h
      obtain ⟨nm, q, t, c, sh⟩ := n
      cases t with
      | dir =>
          rw [mergeSelection_cons_dir]
          exact ih sel p v h
      | file =>
          rw [mergeSelection_cons_file]
          by_cases hq : q = p
          · subst hq
            refine ih _ q v ?_
            rw [h]
            simpa using lookupFlag_setFlag_self sel q v
          · refine ih _ p v ?_
            rw [lookupFlag_setFlag_ne _ _ hq]
            exact h

/-- A path absent before the merge and listed as a file is seeded false. -/
theorem mergeSelection_lookup_new (nodes : List FileNode) :
    ∀ (sel : SelMap) (p : String), lookupFlag sel p = none →
      p ∈ listedFilePaths nodes →
      lookupFlag (mergeSelection sel nodes) p = some false := by
  induction nodes with
  | nil =>
      intro sel p h hmem
      simp [listedFilePaths] at hmem
  | cons n rest ih =>
      intro sel p h hmem
      obtain ⟨nm, q, t, c, sh⟩ := n
      cases t with
      | dir =>
          rw [mergeSelection_cons_dir]
          exact ih sel p h (by simpa [listedFilePaths] using hmem)
      | file =>
          rw [mergeSelection_cons_file]
          by_cases hq : q = p
          · subst hq
            refine mergeSelection_lookup_some rest _ q false ?_
            rw [h]
            simpa using lookupFlag_setFlag_self sel q false
          · simp only [listedFilePaths, List.mem_cons] at hmem
            rcases hmem with rfl | hm
            · exact absurd rfl hq
            · refine ih _ p ?_ hm
              rw [lookupFlag_setFlag_ne _ _ hq]
              exact h

/-- A path absent before the merge and not listed stays absent. -/
theorem mergeSelection_lookup_none (nodes : List FileNode) :
    ∀ (sel : SelMap) (p : String), lookupFlag sel p = none →
      p ∉ listedFilePaths nodes →
      lookupFlag (mergeSelection sel nodes) p = none := by
  induction nodes with
  | nil =>
      intro sel p h _
      simpa [mergeSelection] using h
  | cons n rest ih =>
      intro sel p h hmem
      obtain ⟨nm, q, t, c, sh⟩ := n
      cases t with
      | dir =>
          rw [mergeSelection_cons_dir]
          exact ih sel p h (fun hm => hmem (by simpa [listedFilePaths] using hm))
      | file =>
          rw [mergeSelection_cons_file]
          have hq : q ≠ p := by
            intro hqp
            exact hmem (by simp [listedFilePaths, hqp])
          refine ih _ p ?_ (fun hm => hmem (by simp [listedFilePaths, hm]))
          rw [lookupFlag_setFlag_ne _ _ hq]
          exact h

/-- Merging a listing whose file paths are all already present in the
selection map does not change the map at all. -/
theorem mergeSelection_of_all_present (nodes : List FileNode) :
    ∀ sel : SelMap, (∀ p ∈ listedFilePaths nodes, (lookupFlag sel p).isSome) →
      mergeSelection sel nodes = sel := by
  induction nodes with
  | nil => intro sel _; rfl
  | cons n rest ih =>
      intro sel h
      obtain ⟨nm, q, t, c, sh⟩ := n
      cases t with
      | dir =>
          rw [mergeSelection_cons_dir]
          exact ih sel (fun p hp => h p (by simp [listedFilePaths, hp]))
      | file =>
          rw [mergeSelection_cons_file]
          have hq := h q (by simp [listedFilePaths])
          obtain ⟨v, hv⟩ := Option.isSome_iff_exists.mp hq
          rw [hv]
          simp only [Option.getD_some]
          rw [setFlag_self_of_lookup sel hv]
          exact ih sel (fun p hp => h p (by simp [listedFilePaths, hp]))

/-- Merging the same listing twice equals merging it once. -/
theorem mergeSelection_idem (sel : SelMap) (nodes : List FileNode) :
    mergeSelection (mergeSelection sel nodes) nodes = mergeSelection sel nodes := by
  apply mergeSelection_of_all_present
  intro p hp
  cases hcase : lookupFlag sel p with
  | some v => rw [mergeSelection_lookup_some nodes sel p v hcase]; rfl
  | none => rw [mergeSelection_lookup_new nodes sel p hcase hp]; rfl

/-- The selection component of `updateTreeWithNewNodes` is the merge,
whether or not a parent path is given. -/
theorem updateTreeWithNewNodes_snd (tree : List FileNode) (sel : SelMap)
    (nodes : List FileNode) (pp : Option String) :
    (updateTreeWithNewNodes tree sel nodes pp).2 = mergeSelection sel nodes := by
  cases pp <;> rfl

/-- C3: merging a directory listing seeds a newly introduced file path to
unselected only when it is not already present, leaves every
already-present flag unchanged, touches no other path, and merging the
same listing a second time (with any tree and parent path) leaves the
selection map unchanged. -/
theorem updateTree_selection_merge (tree tree2 : List FileNode) (sel : SelMap)
    (nodes : List FileNode) (pp pp2 : Option String) :
    (∀ p v, lookupFlag sel p = some v →
        lookupFlag (updateTreeWithNewNodes tree sel nodes pp).2 p = some v) ∧
    (∀ p, lookupFlag sel p = none → p ∈ listedFilePaths nodes →
        lookupFlag (updateTreeWithNewNodes tree sel nodes pp).2 p = some false) ∧
    (∀ p, lookupFlag sel p = none → p ∉ listedFilePaths nodes →
        lookupFlag (updateTreeWithNewNodes tree sel nodes pp).2 p = none) ∧
    (updateTreeWithNewNodes tree2
        (updateTreeWithNewNodes tree sel nodes pp).2 nodes pp2).2 =
      (updateTreeWithNewNodes tree sel nodes pp).2 := by
  rw [updateTreeWithNewNodes_snd, updateTreeWithNewNodes_snd]
  exact ⟨fun p v h => mergeSelection_lookup_some nodes sel p v h,
         fun p h hm => mergeSelection_lookup_new nodes sel p h hm,
         fun p h hm => mergeSelection_lookup_none nodes sel p h hm,
         mergeSelection_idem sel nodes⟩

/-- Witness for C3 at a concrete merge: the present flag for `a` is kept,
the newly listed file `b` is seeded false. -/
theorem updateTree_selection_merge_witness :
    lookupFlag (updateTreeWithNewNodes [] [("a", true)]
        [.mk "b" "b" .file none none] none).2 "a" = some true ∧
    lookupFlag (updateTreeWithNewNodes [] [("a", true)]
        [.mk "b" "b" .file none none] none).2 "b" = some false :=
  ⟨(updateTree_selection_merge [] [] [("a", true)]
      [.mk "b" "b" .file none none] none none).1 "a" true (by simp [lookupFlag]),
   (updateTree_selection_merge [] [] [("a", true)]
      [.mk "b" "b" .file none none] none none).2.1 "b"
      (by simp [lookupFlag]) (by simp [listedFilePaths])⟩

/-- Reading back the key just written to an association list. -/
theorem assocGet_set_self {α : Type} (l : List (String × α)) (k : String) (v : α) :
    assocGet (assocSet l k v) k = some v := by
  induction l with
  | nil => simp [assocSet, assocGet]
  | cons kv rest ih =>
      obtain ⟨k', v'⟩ := kv
      by_cases h : k' = k <;> simp [assocSet, assocGet, h, ih]

/-- Writing one key of an association list leaves other keys unchanged. -/
theorem assocGet_set_ne {α : Type} (l : List (String × α)) {k k' : String}
    (v : α) (h : k ≠ k') : assocGet (assocSet l k v) k' = assocGet l k' := by
  induction l with
  | nil => simp [assocSet, assocGet, h]
  | cons kv rest ih =>
      obtain ⟨k0, v0⟩ := kv
      by_cases hk : k0 = k
      · subst hk
        simp [assocSet, assocGet, h]
      · simp only [assocSet, if_neg hk, assocGet]
        split <;> simp [ih]

/-- The error sentinel returned by `fetchFileContent` is never empty. -/
theorem sentinel_ne_empty (p : String) :
    "Error fetching content for " ++ p ++ "." ≠ "" := by
  intro h
  have hl := congrArg String.length h
  simp [String.length_append] at hl
  exact absurd hl.2 (by decide)

/-- Equal file paths give equal cache keys. -/
theorem cacheKey_eq_of_filePath_eq {f g : SelFile}
    (h : f.filePath = g.filePath) : f.cacheKey = g.cacheKey := by
  unfold SelFile.cacheKey
  rw [h]

/-- A cache key equal to the key of a file path forces the file paths to
agree (the fixed prefix cancels on the left). -/
theorem filePath_eq_of_cacheKey_eq {f : SelFile} {fp : String}
    (h : f.cacheKey = "file-content-cache-" ++ fp) : f.filePath = fp := by
  unfold SelFile.cacheKey at h
  have h2 := congrArg String.data h
  rw [String.data_append, String.data_append] at h2
  exact String.ext (List.append_cancel_left h2)

/-- The stage-1 loop emits exactly one resolution event per selected file. -/
theorem fetchStage_events_length (fetcher : SelFile → Except String String)
    (sel : List SelFile) : ∀ cache : Cache,
    (fetchStage fetcher cache sel).events.length = sel.length := by
  induction sel with
  | nil => intro cache; rfl
  | cons f rest ih =>
      intro cache
      cases h : cacheHitEntry cache f
      · cases hf : fetcher f <;> simp [fetchStage, h, hf, ih]
      · simp [fetchStage, h, ih]

/-- Every stage-1 event is a stage-1 event. -/
theorem fetchStage_events_kinds (fetcher : SelFile → Except String String)
    (sel : List SelFile) : ∀ cache : Cache,
    ∀ e ∈ (fetchStage fetcher cache sel).events, e.isStage1 = true := by
  induction sel with
  | nil => intro cache e he; simp [fetchStage] at he
  | cons f rest ih =>
      intro cache e he
      cases hc : cacheHitEntry cache f
      · cases hf : fetcher f with
        | ok c =>
            simp only [fetchStage, hc, hf, List.mem_cons] at he
            rcases he with rfl | he
            · rfl
            · exact ih _ e he
        | error m =>
            simp only [fetchStage, hc, hf, List.mem_cons] at he
            rcases he with rfl | he
            · rfl
            · exact ih _ e he
      · simp only [fetchStage, hc, List.mem_cons] at he
        rcases he with rfl | he
        · rfl
        · exact ih _ e he

/-- A provider failure recorded in the stage-1 events has its transcript
entry in the stage-1 logs. -/
theorem fetchStage_error_logged (fetcher : SelFile → Except String String)
    (sel : List SelFile) : ∀ (cache : Cache) (fp m : String),
    PipeEvent.apiError fp m ∈ (fetchStage fetcher cache sel).events →
    ("  [ERROR] Failed to fetch " ++ fp ++ ": " ++ m) ∈
      (fetchStage fetcher cache sel).logs := by
  induction sel with
  | nil => intro cache fp m h; simp [fetchStage] at h
  | cons f rest ih =>
      intro cache fp m h
      cases hc : cacheHitEntry cache f
      · cases hf : fetcher f with
        | ok c =>
            simp only [fetchStage, hc, hf, List.mem_cons] at h ⊢
            rcases h with h | h
            · simp at h
            · exact Or.inr (ih _ fp m h)
        | error m2 =>
            simp only [fetchStage, hc, hf, List.mem_cons] at h ⊢
            rcases h with h | h
            · simp only [PipeEvent.apiError.injEq] at h
              obtain ⟨rfl, rfl⟩ := h
              exact Or.inr (Or.inl rfl)
            · exact Or.inr (Or.inr (ih _ fp m h))
      · simp only [fetchStage, hc, List.mem_cons] at h ⊢
        rcases h with h | h
        · simp at h
        · exact Or.inr (ih _ fp m h)

/-- With the installed fetcher (which never throws) the stage-1 loop
produces exactly one content entry per selected file. -/
theorem fetchStage_github_fetched_length (atob : String → Option String)
    (api : SelFile → Except String ContentResponse) (sel : List SelFile) :
    ∀ cache : Cache,
    (fetchStage (githubFetcher atob api) cache sel).fetched.length = sel.length := by
  induction sel with
  | nil => intro cache; rfl
  | cons f rest ih =>
      intro cache
      cases h : cacheHitEntry cache f
      · simp [fetchStage, h, githubFetcher, ih]
      · simp [fetchStage, h, ih]

/-- A cache entry with nonempty content survives the stage-1 loop. -/
theorem fetchStage_cache_preserve (fetcher : SelFile → Except String String)
    (sel : List SelFile) : ∀ (cache : Cache) (k : String) (e : CacheEntry),
    assocGet cache k = some e → e.content ≠ "" →
    assocGet (fetchStage fetcher cache sel).cache k = some e := by
  induction sel with
  | nil => intro cache k e h _; simpa [fetchStage] using h
  | cons f rest ih =>
      intro cache k e h he
      cases hc : cacheHitEntry cache f
      · have hkey : f.cacheKey ≠ k := by
          intro hk
          simp only [cacheHitEntry, hk, h] at hc
          simp [he] at hc
        cases hf : fetcher f with
        | ok c =>
            simp only [fetchStage, hc, hf]
            exact ih _ k e (by rw [assocGet_set_ne _ _ hkey]; exact h) he
        | error m =>
            simp only [fetchStage, hc, hf]
            exact ih _ k e h he
      · simp only [fetchStage, hc]
        exact ih _ k e h he

/-- A key absent from the cache and not belonging to any selected file is
still absent after the stage-1 loop. -/
theorem fetchStage_cache_untouched (fetcher : SelFile → Except String String)
    (sel : List SelFile) : ∀ (cache : Cache) (k : String),
    assocGet cache k = none → (∀ g ∈ sel, g.cacheKey ≠ k) →
    assocGet (fetchStage fetcher cache sel).cache k = none := by
  induction sel with
  | nil => intro cache k h _; simpa [fetchStage] using h
  | cons f rest ih =>
      intro cache k h hall
      have hf1 : f.cacheKey ≠ k := hall f (by simp)
      have hrest : ∀ g ∈ rest, g.cacheKey ≠ k := fun g hg => hall g (by simp [hg])
      cases hc : cacheHitEntry cache f
      · cases hf : fetcher f with
        | ok c =>
            simp only [fetchStage, hc, hf]
            exact ih _ k (by rw [assocGet_set_ne _ _ hf1]; exact h) hrest
        | error m =>
            simp only [fetchStage, hc, hf]
            exact ih _ k h hrest
      · simp only [fetchStage, hc]
        exact ih _ k h hrest

/-- For a file path whose cache entry is present with nonempty content, the
stage-1 loop never issues a provider call. -/
theorem fetchStage_cached_no_api (fetcher : SelFile → Except String String)
    (sel : List SelFile) : ∀ (cache : Cache) (fp : String) (e : CacheEntry),
    assocGet cache ("file-content-cache-" ++ fp) = some e → e.content ≠ "" →
    (∀ m, PipeEvent.apiError fp m ∉ (fetchStage fetcher cache sel).events) ∧
    PipeEvent.apiFetch fp ∉ (fetchStage fetcher cache sel).events := by
  induction sel with
  | nil => intro cache fp e _ _; simp [fetchStage]
  | cons f rest ih =>
      intro cache fp e h he
      by_cases hfp : f.filePath = fp
      · have hk : f.cacheKey = "file-content-cache-" ++ fp := by
          unfold SelFile.cacheKey
          rw [hfp]
        have hc : cacheHitEntry cache f = some e := by
          simp [cacheHitEntry, hk, h, he]
        obtain ⟨ih1, ih2⟩ := ih cache fp e h he
        constructor
        · intro m hm
          simp only [fetchStage, hc, List.mem_cons] at hm
          rcases hm with hm | hm
          · simp at hm
          · exact ih1 m hm
        · intro hm
          simp only [fetchStage, hc, List.mem_cons] at hm
          rcases hm with hm | hm
          · simp at hm
          · exact ih2 hm
      · have hk : f.cacheKey ≠ ("file-content-cache-" ++ fp) :=
          fun hkk => hfp (filePath_eq_of_cacheKey_eq hkk)
        cases hc : cacheHitEntry cache f
        · cases hf : fetcher f with
          | ok c =>
              have h2 : assocGet (assocSet cache f.cacheKey
                  ⟨c, c.utf8ByteSize⟩) ("file-content-cache-" ++ fp) = some e := by
                rw [assocGet_set_ne _ _ hk]
                exact h
              obtain ⟨ih1, ih2⟩ := ih _ fp e h2 he
              constructor
              · intro m hm
                simp only [fetchStage, hc, hf, List.mem_cons] at hm
                rcases hm with hm | hm
                · simp at hm
                · exact ih1 m hm
              · intro hm
                simp only [fetchStage, hc, hf, List.mem_cons] at hm
                rcases hm with hm | hm
                · exact hfp (PipeEvent.apiFetch.inj hm).symm
                · exact ih2 hm
          | error m2 =>
              obtain ⟨ih1, ih2⟩ := ih cache fp e h he
              constructor
              · intro m hm
                simp only [fetchStage, hc, hf, List.mem_cons] at hm
                rcases hm with hm | hm
                · simp only [PipeEvent.apiError.injEq] at hm
                  exact hfp hm.1.symm
                · exact ih1 m hm
              · intro hm
                simp only [fetchStage, hc, hf, List.mem_cons] at hm
                rcases hm with hm | hm
                · simp at hm
                · exact ih2 hm
        · obtain ⟨ih1, ih2⟩ := ih cache fp e h he
          constructor
          · intro m hm
            simp only [fetchStage, hc, List.mem_cons] at hm
            rcases hm with hm | hm
            · simp at hm
            · exact ih1 m hm
          · intro hm
            simp only [fetchStage, hc, List.mem_cons] at hm
            rcases hm with hm | hm
            · simp at hm
            · exact ih2 hm

/-- A selected file whose cache entry is present with nonempty content is
served from the cache: its hit event occurs and the cached text is pushed
into the batch. -/
theorem fetchStage_cached_hit (fetcher : SelFile → Except String String)
    (sel : List SelFile) : ∀ (cache : Cache) (fp : String) (e : CacheEntry),
    assocGet cache ("file-content-cache-" ++ fp) = some e → e.content ≠ "" →
    (∃ g ∈ sel, g.filePath = fp) →
    PipeEvent.cacheHit fp ∈ (fetchStage fetcher cache sel).events ∧
    (fp, e.content) ∈ (fetchStage fetcher cache sel).fetched := by
  induction sel with
  | nil => intro cache fp e _ _ hg; simp at hg
  | cons f rest ih =>
      intro cache fp e h he hg
      by_cases hfp : f.filePath = fp
      · have hk : f.cacheKey = "file-content-cache-" ++ fp := by
          unfold SelFile.cacheKey
          rw [hfp]
        have hc : cacheHitEntry cache f = some e := by
          simp [cacheHitEntry, hk, h, he]
        constructor
        · simp only [fetchStage, hc, List.mem_cons]
          exact Or.inl (by rw [hfp])
        · simp only [fetchStage, hc, List.mem_cons]
          exact Or.inl (by rw [hfp])
      · obtain ⟨g, hgmem, hgfp⟩ := hg
        rcases List.mem_cons.mp hgmem with rfl | hgmem
        · exact absurd hgfp hfp
        · have hk : f.cacheKey ≠ ("file-content-cache-" ++ fp) :=
            fun hkk => hfp (filePath_eq_of_cacheKey_eq hkk)
          cases hc : cacheHitEntry cache f
          · cases hf : fetcher f with
            | ok c =>
                have h2 : assocGet (assocSet cache f.cacheKey
                    ⟨c, c.utf8ByteSize⟩) ("file-content-cache-" ++ fp) = some e := by
                  rw [assocGet_set_ne _ _ hk]
                  exact h
                obtain ⟨h3, h4⟩ := ih _ fp e h2 he ⟨g, hgmem, hgfp⟩
                constructor
                · simp only [fetchStage, hc, hf, List.mem_cons]
                  exact Or.inr h3
                · simp only [fetchStage, hc, hf, List.mem_cons]
                  exact Or.inr h4
            | error m =>
                obtain ⟨h3, h4⟩ := ih cache fp e h he ⟨g, hgmem, hgfp⟩
                constructor
                · simp only [fetchStage, hc, hf, List.mem_cons]
                  exact Or.inr h3
                · simp only [fetchStage, hc, hf]
                  exact h4
          · obtain ⟨h3, h4⟩ := ih cache fp e h he ⟨g, hgmem, hgfp⟩
            constructor
            · simp only [fetchStage, hc, List.mem_cons]
              exact Or.inr h3
            · simp only [fetchStage, hc, List.mem_cons]
              exact Or.inr h4

/-- Every event of the summarization loop is a summarization call. -/
theorem summarizeStage_events_kinds {σ : Type}
    (summarize : String → String → Except String σ)
    (files : List (String × String)) :
    ∀ e ∈ (summarizeStage summarize files).1, e.isSummarize = true := by
  induction files with
  | nil => intro e he; simp [summarizeStage] at he
  | cons pc rest ih =>
      intro e he
      obtain ⟨p, c⟩ := pc
      cases hs : summarize p c with
      | error m =>
          simp only [summarizeStage, hs, List.mem_cons, List.not_mem_nil,
            or_false] at he
          subst he
          rfl
      | ok s =>
          simp only [summarizeStage, hs, List.mem_cons] at he
          rcases he with rfl | he
          · rfl
          · exact ih e he

/-- A successful summarization pass yields one summary per fetched file. -/
theorem summarizeStage_length {σ : Type}
    (summarize : String → String → Except String σ)
    (files : List (String × String)) :
    ∀ l, (summarizeStage summarize files).2 = .ok l → l.length = files.length := by
  induction files with
  | nil =>
      intro l h
      simp only [summarizeStage] at h
      cases h
      rfl
  | cons pc rest ih =>
      intro l h
      obtain ⟨p, c⟩ := pc
      cases hs : summarize p c with
      | error m => simp [summarizeStage, hs] at h
      | ok s =>
          simp only [summarizeStage, hs] at h
          cases hr : (summarizeStage summarize rest).2 with
          | error m => rw [hr] at h; simp [Except.map] at h
          | ok l' =>
              rw [hr] at h
              simp only [Except.map] at h
              cases h
              simp [ih l' hr]

/-- The stage-1 artifacts of a run are those of the fetch loop, in every
branch of the pipeline. -/
theorem confirmAndGenerate_fields {σ : Type}
    (summarize : String → String → Except String σ)
    (synthesize : List σ → Except String (Option String))
    (fetcher : SelFile → Except String String)
    (cache : Cache) (selected : List SelFile) :
    (confirmAndGenerate summarize synthesize fetcher cache selected).fetched
      = (fetchStage fetcher cache selected).fetched ∧
    (confirmAndGenerate summarize synthesize fetcher cache selected).cache
      = (fetchStage fetcher cache selected).cache ∧
    (confirmAndGenerate summarize synthesize fetcher cache selected).logs
      = (fetchStage fetcher cache selected).logs := by
  unfold confirmAndGenerate
  by_cases h0 : (fetchStage fetcher cache selected).fetched.isEmpty = true
  · simp [h0]
  · rw [Bool.not_eq_true] at h0
    cases hs2 : (summarizeStage summarize (fetchStage fetcher cache selected).fetched).2 with
    | error m => simp [h0, hs2]
    | ok summaries =>
        cases hsy : synthesize summaries with
        | error m => simp [h0, hs2, hsy]
        | ok docField =>
            cases docField with
            | none => simp [h0, hs2, hsy]
            | some d2 => by_cases hd : d2 = "" <;> simp [h0, hs2, hsy, hd]

/-- When the fetch loop produced nothing, the run is exactly the early
no-content failure. -/
theorem confirmAndGenerate_empty_branch {σ : Type}
    (summarize : String → String → Except String σ)
    (synthesize : List σ → Except String (Option String))
    (fetcher : SelFile → Except String String)
    (cache : Cache) (selected : List SelFile)
    (h : (fetchStage fetcher cache selected).fetched = []) :
    confirmAndGenerate summarize synthesize fetcher cache selected =
      ⟨none, some .noContentFetched, (fetchStage fetcher cache selected).fetched,
       (fetchStage fetcher cache selected).cache,
       (fetchStage fetcher cache selected).logs,
       (fetchStage fetcher cache selected).events, none, none⟩ := by
  unfold confirmAndGenerate
  simp [h]

/-- The run fails with the no-content error exactly when the fetch loop
produced nothing. -/
theorem confirmAndGenerate_noContent_iff {σ : Type}
    (summarize : String → String → Except String σ)
    (synthesize : List σ → Except String (Option String))
    (fetcher : SelFile → Except String String)
    (cache : Cache) (selected : List SelFile) :
    ((confirmAndGenerate summarize synthesize fetcher cache selected).error
        = some RunError.noContentFetched) ↔
      (fetchStage fetcher cache selected).fetched = [] := by
  unfold confirmAndGenerate
  by_cases h0 : (fetchStage fetcher cache selected).fetched.isEmpty = true
  · simp [h0]
    exact List.isEmpty_iff.mp h0
  · rw [Bool.not_eq_true] at h0
    have hne : (fetchStage fetcher cache selected).fetched ≠ [] := by
      intro hnil
      rw [hnil] at h0
      simp at h0
    cases hs2 : (summarizeStage summarize (fetchStage fetcher cache selected).fetched).2 with
    | error m => simp [h0, hs2, hne]
    | ok summaries =>
        cases hsy : synthesize summaries with
        | error m => simp [h0, hs2, hsy, hne]
        | ok docField =>
            cases docField with
            | none => simp [h0, hs2, hsy, hne]
            | some d2 => by_cases hd : d2 = "" <;> simp [h0, hs2, hsy, hd, hne]

/-- The event trace of a run is the stage-1 events, then summarization
events, then possibly the synthesis event. -/
theorem confirmAndGenerate_events_shape {σ : Type}
    (summarize : String → String → Except String σ)
    (synthesize : List σ → Except String (Option String))
    (fetcher : SelFile → Except String String)
    (cache : Cache) (selected : List SelFile) :
    ∃ b c, (confirmAndGenerate summarize synthesize fetcher cache selected).events
        = (fetchStage fetcher cache selected).events ++ b ++ c ∧
      (∀ e ∈ b, e.isSummarize = true) ∧
      (∀ e ∈ c, e = PipeEvent.synthesizeCall) := by
  unfold confirmAndGenerate
  by_cases h0 : (fetchStage fetcher cache selected).fetched.isEmpty = true
  · refine ⟨[], [], by simp [h0], by simp, by simp⟩
  · rw [Bool.not_eq_true] at h0
    cases hs2 : (summarizeStage summarize (fetchStage fetcher cache selected).fetched).2 with
    | error m =>
        refine ⟨(summarizeStage summarize (fetchStage fetcher cache selected).fetched).1,
          [], by simp [h0, hs2], summarizeStage_events_kinds _ _, by simp⟩
    | ok summaries =>
        cases hsy : synthesize summaries with
        | error m =>
            refine ⟨(summarizeStage summarize (fetchStage fetcher cache selected).fetched).1,
              [PipeEvent.synthesizeCall], by simp [h0, hs2, hsy],
              summarizeStage_events_kinds _ _, by simp⟩
        | ok docField =>
            cases docField with
            | none =>
                refine ⟨(summarizeStage summarize (fetchStage fetcher cache selected).fetched).1,
                  [PipeEvent.synthesizeCall], by simp [h0, hs2, hsy],
                  summarizeStage_events_kinds _ _, by simp⟩
            | some d2 =>
                by_cases hd : d2 = "" <;>
                  refine ⟨(summarizeStage summarize (fetchStage fetcher cache selected).fetched).1,
                    [PipeEvent.synthesizeCall], by simp [h0, hs2, hsy, hd],
                    summarizeStage_events_kinds _ _, by simp⟩

/-- What the synthesis call received is the successful summary list. -/
theorem confirmAndGenerate_synthInput {σ : Type}
    (summarize : String → String → Except String σ)
    (synthesize : List σ → Except String (Option String))
    (fetcher : SelFile → Except String String)
    (cache : Cache) (selected : List SelFile) :
    ∀ l, (confirmAndGenerate summarize synthesize fetcher cache selected).synthInput
        = some l →
      (summarizeStage summarize (fetchStage fetcher cache selected).fetched).2
        = .ok l := by
  intro l hl
  unfold confirmAndGenerate at hl
  by_cases h0 : (fetchStage fetcher cache selected).fetched.isEmpty = true
  · simp [h0] at hl
  · rw [Bool.not_eq_true] at h0
    cases hs2 : (summarizeStage summarize (fetchStage fetcher cache selected).fetched).2 with
    | error m => simp [h0, hs2] at hl
    | ok summaries =>
        cases hsy : synthesize summaries with
        | error m =>
            simp [h0, hs2, hsy] at hl
            rw [hl]
        | ok docField =>
            cases docField with
            | none =>
                simp [h0, hs2, hsy] at hl
                rw [hl]
            | some d2 =>
                by_cases hd : d2 = "" <;>
                  · simp [h0, hs2, hsy, hd] at hl
                    rw [hl]

/-- A summarization event is not a stage-1 event. -/
theorem isSummarize_not_stage1 {e : PipeEvent} (h : e.isSummarize = true) :
    e.isStage1 = false := by
  cases e <;> simp_all [PipeEvent.isSummarize, PipeEvent.isStage1]

/-- C5: a provider failure on one selected file is logged and the loop
still resolves every other selected file (one stage-1 event per selected
file, in every run); and a run whose fetch loop produced nothing fails
with the no-content error, performs no AI call, and produces no
document. -/
theorem generation_per_file_failure_tolerated {σ : Type}
    (summarize : String → String → Except String σ)
    (synthesize : List σ → Except String (Option String))
    (fetcher : SelFile → Except String String)
    (cache : Cache) (selected : List SelFile) :
    (((confirmAndGenerate summarize synthesize fetcher cache selected).events.filter
        (fun e => e.isStage1)).length = selected.length) ∧
    (∀ fp m, PipeEvent.apiError fp m ∈
        (confirmAndGenerate summarize synthesize fetcher cache selected).events →
      ("  [ERROR] Failed to fetch " ++ fp ++ ": " ++ m) ∈
        (confirmAndGenerate summarize synthesize fetcher cache selected).logs) ∧
    ((confirmAndGenerate summarize synthesize fetcher cache selected).fetched = [] →
      (confirmAndGenerate summarize synthesize fetcher cache selected).error
          = some RunError.noContentFetched ∧
      (confirmAndGenerate summarize synthesize fetcher cache selected).documentation
          = none ∧
      (∀ e ∈ (confirmAndGenerate summarize synthesize fetcher cache selected).events,
          e.isStage1 = true) ∧
      (confirmAndGenerate summarize synthesize fetcher cache selected).synthInput
          = none) := by
  obtain ⟨hF, hC, hL⟩ :=
    confirmAndGenerate_fields summarize synthesize fetcher cache selected
  obtain ⟨b, c, hev, hb, hc⟩ :=
    confirmAndGenerate_events_shape summarize synthesize fetcher cache selected
  refine ⟨?_, ?_, ?_⟩
  · rw [hev]
    rw [List.filter_append, List.filter_append]
    have h1 : (fetchStage fetcher cache selected).events.filter
        (fun e => e.isStage1) = (fetchStage fetcher cache selected).events :=
      List.filter_eq_self.mpr (fetchStage_events_kinds fetcher selected cache)
    have h2 : b.filter (fun e => e.isStage1) = [] := by
      rw [List.filter_eq_nil_iff]
      intro e he
      simp [isSummarize_not_stage1 (hb e he)]
    have h3 : c.filter (fun e => e.isStage1) = [] := by
      rw [List.filter_eq_nil_iff]
      intro e he
      rw [hc e he]
      simp [PipeEvent.isStage1]
    rw [h1, h2, h3]
    simp [fetchStage_events_length]
  · intro fp m hm
    rw [hev] at hm
    rw [hL]
    rcases List.mem_append.mp hm with hm | hm
    · rcases List.mem_append.mp hm with hm | hm
      · exact fetchStage_error_logged fetcher selected cache fp m hm
      · have := hb _ hm
        simp [PipeEvent.isSummarize] at this
    · have := hc _ hm
      simp at this
  · intro hnil
    rw [hF] at hnil
    rw [confirmAndGenerate_empty_branch summarize synthesize fetcher cache selected hnil]
    refine ⟨rfl, rfl, ?_, rfl⟩
    exact fetchStage_events_kinds fetcher selected cache

/-- Witness for C5: a run where the single selected file fails to fetch
takes the no-content branch, logs the failure, and calls no AI stage. -/
theorem generation_per_file_failure_tolerated_witness :
    (((confirmAndGenerate (fun _ _ => Except.ok (0 : Nat))
        (fun _ => Except.ok (some "d")) (fun _ => Except.error "boom")
        [] [⟨"o", "f"⟩]).events.filter (fun e => e.isStage1)).length = 1) ∧
    ("  [ERROR] Failed to fetch " ++ "o/f" ++ ": " ++ "boom") ∈
      (confirmAndGenerate (fun _ _ => Except.ok (0 : Nat))
        (fun _ => Except.ok (some "d")) (fun _ => Except.error "boom")
        [] [⟨"o", "f"⟩]).logs ∧
    (confirmAndGenerate (fun _ _ => Except.ok (0 : Nat))
        (fun _ => Except.ok (some "d")) (fun _ => Except.error "boom")
        [] [⟨"o", "f"⟩]).error = some RunError.noContentFetched :=
  ⟨(generation_per_file_failure_tolerated _ _ _ _ _).1,
   (generation_per_file_failure_tolerated _ _ _ _ _).2.1 "o/f" "boom" (by
      simp [confirmAndGenerate, fetchStage, cacheHitEntry, assocGet,
        SelFile.cacheKey, SelFile.filePath]),
   ((generation_per_file_failure_tolerated _ _ _ _ _).2.2 (by
      simp [confirmAndGenerate, fetchStage, cacheHitEntry, assocGet])).1⟩

/-- C6: a synthesis call that succeeds but whose parsed documentation
field is missing or empty terminates the run as the empty-document
failure, and the documentation stays null. -/
theorem generation_empty_document_fails {σ : Type}
    (summarize : String → String → Except String σ)
    (synthesize : List σ → Except String (Option String))
    (fetcher : SelFile → Except String String)
    (cache : Cache) (selected : List SelFile) (d : Option String)
    (hout : (confirmAndGenerate summarize synthesize fetcher cache selected).synthOutput
        = some (.ok d))
    (hempty : d = none ∨ d = some "") :
    (confirmAndGenerate summarize synthesize fetcher cache selected).documentation
        = none ∧
    (confirmAndGenerate summarize synthesize fetcher cache selected).error
        = some RunError.emptyDocument := by
  unfold confirmAndGenerate at hout ⊢
  by_cases h0 : (fetchStage fetcher cache selected).fetched.isEmpty = true
  · simp [h0] at hout
  · rw [Bool.not_eq_true] at h0
    cases hs2 : (summarizeStage summarize (fetchStage fetcher cache selected).fetched).2 with
    | error m => simp [h0, hs2] at hout
    | ok summaries =>
        cases hsy : synthesize summaries with
        | error m => simp [h0, hs2, hsy] at hout
        | ok docField =>
            cases docField with
            | none => simp [h0, hs2, hsy]
            | some d2 =>
                by_cases hd : d2 = ""
                · simp [h0, hs2, hsy, hd]
                · simp [h0, hs2, hsy, hd] at hout
                  rcases hempty with rfl | rfl
                  · simp at hout
                  · simp at hout
                    exact absurd hout hd

/-- Witness for C6: a successful synthesis returning an empty
documentation field yields a failed run with no document. -/
theorem generation_empty_document_fails_witness :
    (confirmAndGenerate (fun _ _ => Except.ok (0 : Nat))
        (fun _ => Except.ok (some "")) (fun _ => Except.ok "c")
        [] [⟨"o", "f"⟩]).documentation = none ∧
    (confirmAndGenerate (fun _ _ => Except.ok (0 : Nat))
        (fun _ => Except.ok (some "")) (fun _ => Except.ok "c")
        [] [⟨"o", "f"⟩]).error = some RunError.emptyDocument :=
  generation_empty_document_fails _ _ _ _ _ (some "") (by rfl) (Or.inr rfl)

/-- C7: the run trace is stage-1 events (one per selected file), then the
summarization calls, then possibly the one synthesis call; and when
synthesis is reached its input has exactly one summary per fetched file. -/
theorem generation_stage_ordering {σ : Type}
    (summarize : String → String → Except String σ)
    (synthesize : List σ → Except String (Option String))
    (fetcher : SelFile → Except String String)
    (cache : Cache) (selected : List SelFile) :
    (∃ a b c, (confirmAndGenerate summarize synthesize fetcher cache selected).events
        = a ++ b ++ c ∧
      a.length = selected.length ∧
      (∀ e ∈ a, e.isStage1 = true) ∧
      (∀ e ∈ b, e.isSummarize = true) ∧
      (∀ e ∈ c, e = PipeEvent.synthesizeCall)) ∧
    (∀ l, (confirmAndGenerate summarize synthesize fetcher cache selected).synthInput
        = some l →
      l.length = (confirmAndGenerate summarize synthesize fetcher
        cache selected).fetched.length) := by
  constructor
  · obtain ⟨b, c, hev, hb, hc⟩ :=
      confirmAndGenerate_events_shape summarize synthesize fetcher cache selected
    exact ⟨(fetchStage fetcher cache selected).events, b, c, hev,
      fetchStage_events_length fetcher selected cache,
      fetchStage_events_kinds fetcher selected cache, hb, hc⟩
  · intro l hl
    have h2 := confirmAndGenerate_synthInput summarize synthesize fetcher
      cache selected l hl
    rw [(confirmAndGenerate_fields summarize synthesize fetcher cache selected).1]
    exact summarizeStage_length summarize _ l h2

/-- Witness for C7 at a concrete two-file run reaching synthesis. -/
theorem generation_stage_ordering_witness :
    ∃ l, (confirmAndGenerate (fun _ _ => Except.ok (0 : Nat))
        (fun _ => Except.ok (some "d")) (fun _ => Except.ok "c")
        [] [⟨"o", "f"⟩, ⟨"o", "g"⟩]).synthInput = some l ∧
      l.length = (confirmAndGenerate (fun _ _ => Except.ok (0 : Nat))
        (fun _ => Except.ok (some "d")) (fun _ => Except.ok "c")
        [] [⟨"o", "f"⟩, ⟨"o", "g"⟩]).fetched.length :=
  ⟨[0, 0], rfl,
    (generation_stage_ordering _ _ _ _ _).2 [0, 0] rfl⟩

/-- C9: with the installed never-throwing fetcher the fetch loop yields
exactly one content entry per selected file, so with at least one selected
file the no-content failure branch is unreachable. -/
theorem generation_fetch_total {σ : Type}
    (summarize : String → String → Except String σ)
    (synthesize : List σ → Except String (Option String))
    (atob : String → Option String)
    (api : SelFile → Except String ContentResponse)
    (cache : Cache) (selected : List SelFile) :
    (confirmAndGenerate summarize synthesize (githubFetcher atob api)
        cache selected).fetched.length = selected.length ∧
    (selected ≠ [] →
      (confirmAndGenerate summarize synthesize (githubFetcher atob api)
          cache selected).error ≠ some RunError.noContentFetched) := by
  obtain ⟨hF, _, _⟩ := confirmAndGenerate_fields summarize synthesize
    (githubFetcher atob api) cache selected
  constructor
  · rw [hF]
    exact fetchStage_github_fetched_length atob api selected cache
  · intro hne herr
    have hempty := (confirmAndGenerate_noContent_iff summarize synthesize
      (githubFetcher atob api) cache selected).mp herr
    have hlen := fetchStage_github_fetched_length atob api selected cache
    rw [hempty] at hlen
    simp at hlen
    exact hne (List.length_eq_zero.mp hlen.symm)

/-- Witness for C9: one selected file whose provider call fails still
yields one (sentinel) content entry, and no no-content failure. -/
theorem generation_fetch_total_witness :
    (confirmAndGenerate (fun _ _ => Except.ok (0 : Nat))
        (fun _ => Except.ok (some "d"))
        (githubFetcher (fun _ => none) (fun _ => Except.error "404"))
        [] [⟨"o", "f"⟩]).fetched.length = 1 ∧
    (confirmAndGenerate (fun _ _ => Except.ok (0 : Nat))
        (fun _ => Except.ok (some "d"))
        (githubFetcher (fun _ => none) (fun _ => Except.error "404"))
        [] [⟨"o", "f"⟩]).error ≠ some RunError.noContentFetched :=
  ⟨(generation_fetch_total _ _ _ _ _ _).1,
   (generation_fetch_total _ _ _ _ _ _).2 (by simp)⟩

/-- When the provider call for a selected file fails and its cache key is
untouched so far, the stage-1 loop pushes the sentinel text into the batch
and writes it to the cache like real content. -/
theorem fetchStage_miss_error_caches (atob : String → Option String)
    (api : SelFile → Except String ContentResponse) (f : SelFile)
    (msg : String) (hapi : api f = .error msg) (post : List SelFile) :
    ∀ (pre : List SelFile) (cache : Cache),
    (∀ g ∈ pre, g.cacheKey ≠ f.cacheKey) →
    assocGet cache f.cacheKey = none →
    assocGet (fetchStage (githubFetcher atob api) cache
        (pre ++ f :: post)).cache f.cacheKey
      = some ⟨"Error fetching content for " ++ f.path ++ ".",
              ("Error fetching content for " ++ f.path ++ ".").utf8ByteSize⟩ ∧
    (f.filePath, "Error fetching content for " ++ f.path ++ ".") ∈
      (fetchStage (githubFetcher atob api) cache (pre ++ f :: post)).fetched := by
  intro pre
  induction pre with
  | nil =>
      intro cache _ hmiss
      have hc : cacheHitEntry cache f = none := by
        simp [cacheHitEntry, hmiss]
      have hfe : githubFetcher atob api f
          = .ok ("Error fetching content for " ++ f.path ++ ".") := by
        simp [githubFetcher, fetchFileContent, hapi]
      simp only [List.nil_append, fetchStage, hc, hfe]
      constructor
      · exact fetchStage_cache_preserve _ post _ _ _
          (assocGet_set_self _ _ _) (sentinel_ne_empty _)
      · exact .head _
  | cons g pre ih =>
      intro cache hpre hmiss
      have hg : g.cacheKey ≠ f.cacheKey := hpre g (by simp)
      have hrest : ∀ g2 ∈ pre, g2.cacheKey ≠ f.cacheKey :=
        fun g2 h2 => hpre g2 (by simp [h2])
      cases hc : cacheHitEntry cache g
      · have hfg : githubFetcher atob api g
            = .ok (fetchFileContent atob (api g) g.path) := rfl
        simp only [List.cons_append, fetchStage, hc, hfg]
        obtain ⟨ih1, ih2⟩ := ih
          (assocSet cache g.cacheKey
            ⟨fetchFileContent atob (api g) g.path,
             (fetchFileContent atob (api g) g.path).utf8ByteSize⟩)
          hrest (by rw [assocGet_set_ne _ _ hg]; exact hmiss)
        exact ⟨ih1, .tail _ ih2⟩
      · simp only [List.cons_append, fetchStage, hc]
        obtain ⟨ih1, ih2⟩ := ih cache hrest hmiss
        exact ⟨ih1, .tail _ ih2⟩

/-- C10: a failed fetch caches the sentinel error text exactly like real
content; a later run that selects the same file takes the cache-hit
branch (the sentinel is nonempty), reuses the cached error text, and makes
no new provider call for that file. -/
theorem failed_fetch_cached_not_retried {σ1 σ2 : Type}
    (sum1 : String → String → Except String σ1)
    (syn1 : List σ1 → Except String (Option String))
    (sum2 : String → String → Except String σ2)
    (syn2 : List σ2 → Except String (Option String))
    (atob : String → Option String)
    (api : SelFile → Except String ContentResponse)
    (fetcher2 : SelFile → Except String String)
    (cache : Cache) (pre post sel2 : List SelFile) (f : SelFile) (msg : String)
    (hpre : ∀ g ∈ pre, g.cacheKey ≠ f.cacheKey)
    (hmiss : assocGet cache f.cacheKey = none)
    (hapi : api f = Except.error msg)
    (hmem2 : f ∈ sel2) :
    assocGet (confirmAndGenerate sum1 syn1 (githubFetcher atob api) cache
        (pre ++ f :: post)).cache f.cacheKey
      = some ⟨"Error fetching content for " ++ f.path ++ ".",
              ("Error fetching content for " ++ f.path ++ ".").utf8ByteSize⟩ ∧
    (f.filePath, "Error fetching content for " ++ f.path ++ ".") ∈
      (confirmAndGenerate sum1 syn1 (githubFetcher atob api) cache
        (pre ++ f :: post)).fetched ∧
    ("Error fetching content for " ++ f.path ++ ".") ≠ "" ∧
    PipeEvent.cacheHit f.filePath ∈
      (confirmAndGenerate sum2 syn2 fetcher2
        (confirmAndGenerate sum1 syn1 (githubFetcher atob api) cache
          (pre ++ f :: post)).cache sel2).events ∧
    (f.filePath, "Error fetching content for " ++ f.path ++ ".") ∈
      (confirmAndGenerate sum2 syn2 fetcher2
        (confirmAndGenerate sum1 syn1 (githubFetcher atob api) cache
          (pre ++ f :: post)).cache sel2).fetched ∧
    (∀ m, PipeEvent.apiError f.filePath m ∉
      (confirmAndGenerate sum2 syn2 fetcher2
        (confirmAndGenerate sum1 syn1 (githubFetcher atob api) cache
          (pre ++ f :: post)).cache sel2).events) ∧
    PipeEvent.apiFetch f.filePath ∉
      (confirmAndGenerate sum2 syn2 fetcher2
        (confirmAndGenerate sum1 syn1 (githubFetcher atob api) cache
          (pre ++ f :: post)).cache sel2).events := by
  obtain ⟨hF1, hC1, _⟩ := confirmAndGenerate_fields sum1 syn1
    (githubFetcher atob api) cache (pre ++ f :: post)
  obtain ⟨hck, hfmem⟩ :=
    fetchStage_miss_error_caches atob api f msg hapi post pre cache hpre hmiss
  have hckey : f.cacheKey = "file-content-cache-" ++ f.filePath := rfl
  have hcacheF : assocGet (confirmAndGenerate sum1 syn1 (githubFetcher atob api)
      cache (pre ++ f :: post)).cache ("file-content-cache-" ++ f.filePath)
      = some ⟨"Error fetching content for " ++ f.path ++ ".",
              ("Error fetching content for " ++ f.path ++ ".").utf8ByteSize⟩ := by
    rw [hC1, ← hckey]
    exact hck
  obtain ⟨hF2, _, _⟩ := confirmAndGenerate_fields sum2 syn2 fetcher2
    (confirmAndGenerate sum1 syn1 (githubFetcher atob api) cache
      (pre ++ f :: post)).cache sel2
  obtain ⟨b, c, hev2, hb, hc⟩ := confirmAndGenerate_events_shape sum2 syn2 fetcher2
    (confirmAndGenerate sum1 syn1 (githubFetcher atob api) cache
      (pre ++ f :: post)).cache sel2
  obtain ⟨hhit, hre⟩ := fetchStage_cached_hit fetcher2 sel2 _ f.filePath _
    hcacheF (sentinel_ne_empty _) ⟨f, hmem2, rfl⟩
  obtain ⟨hnoerr, hnofetch⟩ := fetchStage_cached_no_api fetcher2 sel2 _ f.filePath _
    hcacheF (sentinel_ne_empty _)
  refine ⟨by rw [hC1]; exact hck, by rw [hF1]; exact hfmem,
    sentinel_ne_empty _, ?_, ?_, ?_, ?_⟩
  · rw [hev2]
    exact List.mem_append_left _ (List.mem_append_left _ hhit)
  · rw [hF2]
    exact hre
  · intro m hm
    rw [hev2] at hm
    rcases List.mem_append.mp hm with hm | hm
    · rcases List.mem_append.mp hm with hm | hm
      · exact hnoerr m hm
      · have := hb _ hm
        simp [PipeEvent.isSummarize] at this
    · have := hc _ hm
      simp at this
  · intro hm
    rw [hev2] at hm
    rcases List.mem_append.mp hm with hm | hm
    · rcases List.mem_append.mp hm with hm | hm
      · exact hnofetch hm
      · have := hb _ hm
        simp [PipeEvent.isSummarize] at this
    · have := hc _ hm
      simp at this

/-- Witness for C10 at a concrete pair of runs over one file whose
provider call fails in the first run. -/
theorem failed_fetch_cached_not_retried_witness :
    (SelFile.mk "o/r" "x" |>.filePath,
        "Error fetching content for " ++ "x" ++ ".") ∈
      (confirmAndGenerate (fun _ _ => Except.ok (0 : Nat))
        (fun _ => Except.ok (some "d"))
        (githubFetcher (fun _ => none) (fun _ => Except.error "boom"))
        [] [SelFile.mk "o/r" "x"]).fetched ∧
    (∀ m, PipeEvent.apiError (SelFile.mk "o/r" "x").filePath m ∉
      (confirmAndGenerate (fun _ _ => Except.ok (1 : Nat))
        (fun _ => Except.ok (some "d2")) (fun _ => Except.ok "fresh")
        (confirmAndGenerate (fun _ _ => Except.ok (0 : Nat))
          (fun _ => Except.ok (some "d"))
          (githubFetcher (fun _ => none) (fun _ => Except.error "boom"))
          [] [SelFile.mk "o/r" "x"]).cache [SelFile.mk "o/r" "x"]).events) :=
  ⟨(failed_fetch_cached_not_retried (fun _ _ => Except.ok (0 : Nat))
      (fun _ => Except.ok (some "d")) (fun _ _ => Except.ok (1 : Nat))
      (fun _ => Except.ok (some "d2")) (fun _ => none)
      (fun _ => Except.error "boom") (fun _ => Except.ok "fresh")
      [] [] [] [SelFile.mk "o/r" "x"] (SelFile.mk "o/r" "x") "boom"
      (by simp) rfl rfl (by simp)).2.1,
   (failed_fetch_cached_not_retried (fun _ _ => Except.ok (0 : Nat))
      (fun _ => Except.ok (some "d")) (fun _ _ => Except.ok (1 : Nat))
      (fun _ => Except.ok (some "d2")) (fun _ => none)
      (fun _ => Except.error "boom") (fun _ => Except.ok "fresh")
      [] [] [] [SelFile.mk "o/r" "x"] (SelFile.mk "o/r" "x") "boom"
      (by simp) rfl rfl (by simp)).2.2.2.2.2.1⟩

/-- C8 (amended): a storage read failure, a corrupt (undeserializable)
entry, and a storage write failure are each non-fatal — logged, treated as
a cache miss, with no error propagating and the store left exactly as it
was.  In particular a corrupt entry is not evicted: the store is
unchanged. -/
theorem cache_failure_nonfatal {α : Type} (parse : String → Option α)
    (store : Store) (key raw : String) :
    ((getCachedData parse false store key).result = none ∧
     (getCachedData parse false store key).store = store ∧
     (getCachedData parse false store key).logs ≠ []) ∧
    (∀ v, assocGet store key = some v → parse v = none →
      (getCachedData parse true store key).result = none ∧
      (getCachedData parse true store key).store = store ∧
      (getCachedData parse true store key).logs ≠ []) ∧
    (assocGet store key = none →
      (getCachedData parse true store key).result = none ∧
      (getCachedData parse true store key).store = store) ∧
    (setCachedData false store key raw).store = store ∧
    (setCachedData false store key raw).logs ≠ [] := by
  refine ⟨?_, ?_, ?_, ?_, ?_⟩
  · simp [getCachedData]
  · intro v hv hp
    simp [getCachedData, hv, hp]
  · intro h
    simp [getCachedData, h]
  · simp [setCachedData]
  · simp [setCachedData]

/-- C8 counterexample: a corrupt entry is detected (the read returns a
miss) yet the entry is still in the store afterwards — it is not
evicted, contrary to the claim. -/
theorem cache_corrupt_not_evicted_counterexample :
    (getCachedData (fun _ => (none : Option Nat)) true
      [("k", "corrupt")] "k").result = none ∧
    (getCachedData (fun _ => (none : Option Nat)) true
      [("k", "corrupt")] "k").store = [("k", "corrupt")] ∧
    assocGet ((getCachedData (fun _ => (none : Option Nat)) true
      [("k", "corrupt")] "k").store) "k" = some "corrupt" :=
  ⟨rfl, rfl, rfl⟩

/-- Witness for the amended C8 theorem at a concrete corrupt entry. -/
theorem cache_failure_nonfatal_witness :
    (getCachedData (fun _ => (none : Option Nat)) true [("k", "bad")] "k").result
        = none ∧
    (getCachedData (fun _ => (none : Option Nat)) true [("k", "bad")] "k").store
        = [("k", "bad")] :=
  ⟨((cache_failure_nonfatal (fun _ => (none : Option Nat))
      [("k", "bad")] "k" "raw").2.1 "bad" rfl rfl).1,
   ((cache_failure_nonfatal (fun _ => (none : Option Nat))
      [("k", "bad")] "k" "raw").2.1 "bad" rfl rfl).2.1⟩

/-- Delivered files distribute over trace concatenation. -/
theorem deliveredFiles_append (a b : List TravEvent) :
    deliveredFiles (a ++ b) = deliveredFiles a ++ deliveredFiles b := by
  induction a with
  | nil => simp [deliveredFiles]
  | cons e rest ih =>
      cases e with
      | fetchDir d res =>
          cases res <;> simp [deliveredFiles, ih]
      | flagSet p v => simp [deliveredFiles, ih]
      | commit => simp [deliveredFiles, ih]

/-- Fetch-before-flag discipline is monotone in the known set. -/
theorem traceOk_mono (evs : List TravEvent) : ∀ (K K' : List String),
    (∀ p ∈ K, p ∈ K') → traceOk K evs → traceOk K' evs := by
  induction evs with
  | nil => intro K K' _ _; trivial
  | cons e rest ih =>
      intro K K' hsub ht
      cases e with
      | flagSet p v =>
          simp only [traceOk] at ht ⊢
          exact ⟨hsub p ht.1, ih K K' hsub ht.2⟩
      | fetchDir d res =>
          cases res with
          | some cs =>
              simp only [traceOk] at ht ⊢
              refine ih _ _ ?_ ht
              intro p hp
              rcases List.mem_append.mp hp with hp | hp
              · exact List.mem_append_left _ (hsub p hp)
              · exact List.mem_append_right _ hp
          | none =>
              simp only [traceOk] at ht ⊢
              exact ih K K' hsub ht
      | commit =>
          simp only [traceOk] at ht ⊢
          exact ih K K' hsub ht

/-- Concatenating well-disciplined traces: the second may rely on what the
first delivered. -/
theorem traceOk_append (e1 : List TravEvent) : ∀ (e2 : List TravEvent)
    (K : List String), traceOk K e1 →
    traceOk (K ++ deliveredFiles e1) e2 → traceOk K (e1 ++ e2) := by
  induction e1 with
  | nil =>
      intro e2 K _ h2
      simp only [deliveredFiles] at h2
      simpa using traceOk_mono e2 _ _ (by simp) h2
  | cons e rest ih =>
      intro e2 K h1 h2
      cases e with
      | flagSet p v =>
          simp only [traceOk, List.cons_append] at h1 ⊢
          refine ⟨h1.1, ih e2 K h1.2 ?_⟩
          exact traceOk_mono e2 _ _ (by intro q hq; simpa [deliveredFiles] using hq) h2
      | fetchDir d res =>
          cases res with
          | some cs =>
              simp only [traceOk, List.cons_append] at h1 ⊢
              refine ih e2 (K ++ nodesFilePaths cs) h1 ?_
              refine traceOk_mono e2 _ _ ?_ h2
              intro q hq
              simp only [deliveredFiles, List.mem_append] at hq ⊢
              tauto
          | none =>
              simp only [traceOk, List.cons_append] at h1 ⊢
              refine ih e2 K h1 ?_
              exact traceOk_mono e2 _ _ (by intro q hq; simpa [deliveredFiles] using hq) h2
      | commit =>
          simp only [traceOk, List.cons_append] at h1 ⊢
          refine ih e2 K h1 ?_
          exact traceOk_mono e2 _ _ (by intro q hq; simpa [deliveredFiles] using hq) h2

/-- Unconditional unfolding of the traversal at a directory node. -/
theorem travGo_cons_dir (world : String → Option (List FileNode))
    (loaded : String → Bool) (isSel : Bool)
    (recurse : SelMap → List FileNode → SelMap × List TravEvent)
    (sel : SelMap) (nm p : String) (ch : Option (List FileNode))
    (sh : Option String) (rest : List FileNode) :
    travGo world loaded isSel recurse sel (.mk nm p .dir ch sh :: rest) =
      if needsFetch loaded isSel p ch then
        match world p with
        | some cs =>
            ((travGo world loaded isSel recurse (recurse sel cs).1 rest).1,
             .fetchDir p (some cs) ::
               ((recurse sel cs).2 ++
                (travGo world loaded isSel recurse (recurse sel cs).1 rest).2))
        | none =>
            ((travGo world loaded isSel recurse sel rest).1,
             .fetchDir p none :: (travGo world loaded isSel recurse sel rest).2)
      else
        match ch with
        | some cs =>
            ((travGo world loaded isSel recurse
                (travGo world loaded isSel recurse sel cs).1 rest).1,
             (travGo world loaded isSel recurse sel cs).2 ++
               (travGo world loaded isSel recurse
                 (travGo world loaded isSel recurse sel cs).1 rest).2)
        | none => travGo world loaded isSel recurse sel rest := by
  cases ch with
  | none => rw [travGo.eq_4]
  | some cs => rw [travGo.eq_3]

/-- The traversal of `toggleFolderSelection` never emits the commit event
itself (commit happens once, after the traversal resolves). -/
theorem travGo_no_commit (world : String → Option (List FileNode))
    (loaded : String → Bool) (isSel : Bool)
    (recurse : SelMap → List FileNode → SelMap × List TravEvent)
    (hrec : ∀ s cs, TravEvent.commit ∉ (recurse s cs).2) :
    ∀ (sel : SelMap) (items : List FileNode),
      TravEvent.commit ∉ (travGo world loaded isSel recurse sel items).2 := by
  intro sel items
  induction sel, items using travGo.induct world loaded isSel recurse with
  | case1 sel => simp [travGo]
  | case2 sel nm p ch sh rest ih =>
      intro hmem
      simp only [travGo.eq_2, List.mem_cons] at hmem
      rcases hmem with h | h
      · exact TravEvent.noConfusion h
      · exact ih h
  | case3 sel nm p ch sh rest hcond cs hw r1 ih =>
      intro hmem
      simp only [travGo_cons_dir, hcond, hw, if_true, List.mem_cons,
        List.mem_append] at hmem
      rcases hmem with h | h | h
      · exact TravEvent.noConfusion h
      · exact hrec sel cs h
      · exact ih h
  | case4 sel nm p ch sh rest hcond hw ih =>
      intro hmem
      simp only [travGo_cons_dir, hcond, hw, if_true, List.mem_cons] at hmem
      rcases hmem with h | h
      · exact TravEvent.noConfusion h
      · exact ih h
  | case5 sel nm p sh rest cs r1 hcond ih1 ih2 =>
      intro hmem
      simp only [travGo_cons_dir, hcond, if_false] at hmem
      rcases List.mem_append.mp hmem with h | h
      · exact ih1 h
      · exact ih2 h
  | case6 sel nm p sh rest hcond ih =>
      intro hmem
      simp only [travGo_cons_dir, hcond, if_false] at hmem
      exact ih hmem

/-- Files of the tail are files of the whole directory-headed list. -/
theorem nodesFilePaths_cons_dir_sub (nm p : String)
    (ch : Option (List FileNode)) (sh : Option String)
    (rest : List FileNode) :
    ∀ q ∈ nodesFilePaths rest,
      q ∈ nodesFilePaths (FileNode.mk nm p .dir ch sh :: rest) := by
  intro q hq
  cases ch with
  | none => simpa [nodesFilePaths] using hq
  | some cs =>
      simp only [nodesFilePaths, List.mem_append]
      exact Or.inr hq

/-- The traversal sets flags only on files already known: those visible in
the initial forest or delivered by an earlier fetch of the same trace. -/
theorem travGo_traceOk (world : String → Option (List FileNode))
    (loaded : String → Bool) (isSel : Bool)
    (recurse : SelMap → List FileNode → SelMap × List TravEvent)
    (hrec : ∀ s cs K, (∀ p ∈ nodesFilePaths cs, p ∈ K) →
      traceOk K (recurse s cs).2) :
    ∀ (sel : SelMap) (items : List FileNode) (K : List String),
      (∀ p ∈ nodesFilePaths items, p ∈ K) →
      traceOk K (travGo world loaded isSel recurse sel items).2 := by
  intro sel items
  induction sel, items using travGo.induct world loaded isSel recurse with
  | case1 sel => intro K _; simp [travGo, traceOk]
  | case2 sel nm p ch sh rest ih =>
      intro K hK
      rw [travGo.eq_2]
      refine ⟨hK p (by simp [nodesFilePaths]), ?_⟩
      exact ih K (fun q hq => hK q (by simp [nodesFilePaths, hq]))
  | case3 sel nm p ch sh rest hcond cs hw r1 ih =>
      intro K hK
      rw [travGo_cons_dir]
      simp only [hcond, hw, eq_self_iff_true, if_true]
      show traceOk (K ++ nodesFilePaths cs) _
      apply traceOk_append
      · exact hrec sel cs _ (fun q hq => List.mem_append_right _ hq)
      · apply ih
        intro q hq
        have hqK : q ∈ K := hK q (nodesFilePaths_cons_dir_sub nm p ch sh rest q hq)
        exact List.mem_append_left _ (List.mem_append_left _ hqK)
  | case4 sel nm p ch sh rest hcond hw ih =>
      intro K hK
      rw [travGo_cons_dir]
      simp only [hcond, hw, eq_self_iff_true, if_true]
      show traceOk K _
      exact ih K (fun q hq => hK q (nodesFilePaths_cons_dir_sub nm p ch sh rest q hq))
  | case5 sel nm p sh rest cs r1 hcond ih1 ih2 =>
      intro K hK
      rw [travGo_cons_dir, if_neg hcond]
      apply traceOk_append
      · exact ih1 K (fun q hq => hK q (by
          simp only [nodesFilePaths, List.mem_append]; exact Or.inl hq))
      · apply ih2
        intro q hq
        have hqK : q ∈ K := hK q
          (nodesFilePaths_cons_dir_sub nm p (some cs) sh rest q hq)
        exact List.mem_append_left _ hqK
  | case6 sel nm p sh rest hcond ih =>
      intro K hK
      rw [travGo_cons_dir, if_neg hcond]
      exact ih K (fun q hq =>
        hK q (nodesFilePaths_cons_dir_sub nm p none sh rest q hq))

/-- Any flag turned true by the traversal belongs to a file of the initial
forest, a file delivered by a fetch of the trace, or was true before. -/
theorem travGo_sel_true (world : String → Option (List FileNode))
    (loaded : String → Bool) (isSel : Bool)
    (recurse : SelMap → List FileNode → SelMap × List TravEvent)
    (hrec : ∀ s cs p, lookupFlag (recurse s cs).1 p = some true →
      lookupFlag s p = some true ∨ p ∈ nodesFilePaths cs ∨
        p ∈ deliveredFiles (recurse s cs).2) :
    ∀ (sel : SelMap) (items : List FileNode) (p : String),
      lookupFlag (travGo world loaded isSel recurse sel items).1 p = some true →
      lookupFlag sel p = some true ∨ p ∈ nodesFilePaths items ∨
        p ∈ deliveredFiles (travGo world loaded isSel recurse sel items).2 := by
  intro sel items
  induction sel, items using travGo.induct world loaded isSel recurse with
  | case1 sel =>
      intro p h
      rw [travGo.eq_1] at h
      exact Or.inl h
  | case2 sel nm p0 ch sh rest ih =>
      intro p h
      rw [travGo.eq_2] at h
      rw [travGo.eq_2]
      rcases ih p h with h1 | h1 | h1
      · by_cases hpp : p0 = p
        · subst hpp
          rw [lookupFlag_setFlag_self] at h1
          refine Or.inr (Or.inl ?_)
          simp [nodesFilePaths]
        · rw [lookupFlag_setFlag_ne _ _ hpp] at h1
          exact Or.inl h1
      · refine Or.inr (Or.inl ?_)
        simp only [nodesFilePaths, List.mem_cons]
        exact Or.inr h1
      · exact Or.inr (Or.inr h1)
  | case3 sel nm p0 ch sh rest hcond cs hw r1 ih =>
      intro p h
      rw [travGo_cons_dir] at h ⊢
      simp only [hcond, hw, eq_self_iff_true, if_true] at h ⊢
      rcases ih p h with h1 | h1 | h1
      · rcases hrec sel cs p h1 with h2 | h2 | h2
        · exact Or.inl h2
        · exact Or.inr (Or.inr (List.mem_append_left _ h2))
        · refine Or.inr (Or.inr (List.mem_append_right _ ?_))
          rw [deliveredFiles_append]
          exact List.mem_append_left _ h2
      · exact Or.inr (Or.inl (nodesFilePaths_cons_dir_sub nm p0 ch sh rest p h1))
      · refine Or.inr (Or.inr (List.mem_append_right _ ?_))
        rw [deliveredFiles_append]
        exact List.mem_append_right _ h1
  | case4 sel nm p0 ch sh rest hcond hw ih =>
      intro p h
      rw [travGo_cons_dir] at h ⊢
      simp only [hcond, hw, eq_self_iff_true, if_true] at h ⊢
      rcases ih p h with h1 | h1 | h1
      · exact Or.inl h1
      · exact Or.inr (Or.inl (nodesFilePaths_cons_dir_sub nm p0 ch sh rest p h1))
      · exact Or.inr (Or.inr h1)
  | case5 sel nm p0 sh rest cs r1 hcond ih1 ih2 =>
      intro p h
      rw [travGo_cons_dir, if_neg hcond] at h ⊢
      rcases ih2 p h with h1 | h1 | h1
      · rcases ih1 p h1 with h2 | h2 | h2
        · exact Or.inl h2
        · refine Or.inr (Or.inl ?_)
          simp only [nodesFilePaths, List.mem_append]
          exact Or.inl h2
        · refine Or.inr (Or.inr ?_)
          rw [deliveredFiles_append]
          exact List.mem_append_left _ h2
      · exact Or.inr (Or.inl
          (nodesFilePaths_cons_dir_sub nm p0 (some cs) sh rest p h1))
      · refine Or.inr (Or.inr ?_)
        rw [deliveredFiles_append]
        exact List.mem_append_right _ h1
  | case6 sel nm p0 sh rest hcond ih =>
      intro p h
      rw [travGo_cons_dir, if_neg hcond] at h ⊢
      rcases ih p h with h1 | h1 | h1
      · exact Or.inl h1
      · exact Or.inr (Or.inl
          (nodesFilePaths_cons_dir_sub nm p0 none sh rest p h1))
      · exact Or.inr (Or.inr h1)

/-- Unconditional unfolding of `unfetchedDirs` at a directory node. -/
theorem unfetchedDirs_cons_dir (loaded : String → Bool) (isSel : Bool)
    (nm p : String) (ch : Option (List FileNode)) (sh : Option String)
    (rest : List FileNode) :
    unfetchedDirs loaded isSel (.mk nm p .dir ch sh :: rest) =
      (if needsFetch loaded isSel p ch then [p]
       else
         match ch with
         | some cs => unfetchedDirs loaded isSel cs
         | none => []) ++ unfetchedDirs loaded isSel rest := by
  cases ch with
  | none => rw [unfetchedDirs.eq_4]
  | some cs => rw [unfetchedDirs.eq_3]

/-- Unconditional unfolding of `travGoOk` at a directory node. -/
theorem travGoOk_cons_dir (world : String → Option (List FileNode))
    (loaded : String → Bool) (isSel : Bool)
    (recurseOk : List FileNode → Bool) (nm p : String)
    (ch : Option (List FileNode)) (sh : Option String)
    (rest : List FileNode) :
    travGoOk world loaded isSel recurseOk (.mk nm p .dir ch sh :: rest) =
      ((if needsFetch loaded isSel p ch then
          match world p with
          | some cs => recurseOk cs
          | none => true
        else
          match ch with
          | some cs => travGoOk world loaded isSel recurseOk cs
          | none => true) && travGoOk world loaded isSel recurseOk rest) := by
  cases ch with
  | none => rw [travGoOk.eq_4]
  | some cs => rw [travGoOk.eq_3]

/-- Every directory that the traversal must fetch within the visible
forest — at any depth reached through already-present children — gets a
fetch attempt recorded in the trace, whatever the fuelled recursion does
for freshly fetched subtrees. -/
theorem travGo_fetches_unfetchedDirs (world : String → Option (List FileNode))
    (loaded : String → Bool) (isSel : Bool)
    (recurse : SelMap → List FileNode → SelMap × List TravEvent) :
    ∀ (sel : SelMap) (items : List FileNode) (p : String),
      p ∈ unfetchedDirs loaded isSel items →
      ∃ res, TravEvent.fetchDir p res ∈
        (travGo world loaded isSel recurse sel items).2 := by
  intro sel items
  induction sel, items using travGo.induct world loaded isSel recurse with
  | case1 sel =>
      intro p hp
      simp [unfetchedDirs] at hp
  | case2 sel nm p0 ch sh rest ih =>
      intro p hp
      rw [travGo.eq_2]
      rw [unfetchedDirs.eq_2] at hp
      obtain ⟨res, hres⟩ := ih p hp
      exact ⟨res, List.mem_cons_of_mem _ hres⟩
  | case3 sel nm p0 ch sh rest hcond cs hw r1 ih =>
      intro p hp
      rw [travGo_cons_dir]
      simp only [hcond, hw, eq_self_iff_true, if_true]
      rw [unfetchedDirs_cons_dir] at hp
      simp only [hcond, eq_self_iff_true, if_true] at hp
      rcases List.mem_append.mp hp with hp | hp
      · rw [List.mem_singleton] at hp
        subst hp
        exact ⟨some cs, List.mem_cons_self _ _⟩
      · obtain ⟨res, hres⟩ := ih p hp
        exact ⟨res, List.mem_cons_of_mem _ (List.mem_append_right _ hres)⟩
  | case4 sel nm p0 ch sh rest hcond hw ih =>
      intro p hp
      rw [travGo_cons_dir]
      simp only [hcond, hw, eq_self_iff_true, if_true]
      rw [unfetchedDirs_cons_dir] at hp
      simp only [hcond, eq_self_iff_true, if_true] at hp
      rcases List.mem_append.mp hp with hp | hp
      · rw [List.mem_singleton] at hp
        subst hp
        exact ⟨none, List.mem_cons_self _ _⟩
      · obtain ⟨res, hres⟩ := ih p hp
        exact ⟨res, List.mem_cons_of_mem _ hres⟩
  | case5 sel nm p0 sh rest cs r1 hcond ih1 ih2 =>
      intro p hp
      rw [travGo_cons_dir, if_neg hcond]
      rw [unfetchedDirs_cons_dir, if_neg hcond] at hp
      rcases List.mem_append.mp hp with hp | hp
      · obtain ⟨res, hres⟩ := ih1 p hp
        exact ⟨res, List.mem_append_left _ hres⟩
      · obtain ⟨res, hres⟩ := ih2 p hp
        exact ⟨res, List.mem_append_right _ hres⟩
  | case6 sel nm p0 sh rest hcond ih =>
      intro p hp
      rw [travGo_cons_dir, if_neg hcond]
      rw [unfetchedDirs_cons_dir, if_neg hcond] at hp
      simp only [List.nil_append] at hp
      exact ih p hp

/-- Closure of a complete traversal: when the completeness flag holds,
every listing delivered by a fetch event of the trace has its own
unfetched directories fetched somewhere in the same trace. -/
theorem travGo_trace_closed (world : String → Option (List FileNode))
    (loaded : String → Bool) (isSel : Bool)
    (recurse : SelMap → List FileNode → SelMap × List TravEvent)
    (recurseOk : List FileNode → Bool)
    (hrecFetch : ∀ (s : SelMap) (cs : List FileNode), recurseOk cs = true →
      ∀ q ∈ unfetchedDirs loaded isSel cs,
        ∃ res, TravEvent.fetchDir q res ∈ (recurse s cs).2)
    (hrecClosed : ∀ (s : SelMap) (cs : List FileNode), recurseOk cs = true →
      ∀ d cs2, TravEvent.fetchDir d (some cs2) ∈ (recurse s cs).2 →
      ∀ q ∈ unfetchedDirs loaded isSel cs2,
        ∃ res, TravEvent.fetchDir q res ∈ (recurse s cs).2) :
    ∀ (sel : SelMap) (items : List FileNode),
      travGoOk world loaded isSel recurseOk items = true →
      ∀ d cs2, TravEvent.fetchDir d (some cs2) ∈
        (travGo world loaded isSel recurse sel items).2 →
      ∀ q ∈ unfetchedDirs loaded isSel cs2,
        ∃ res, TravEvent.fetchDir q res ∈
          (travGo world loaded isSel recurse sel items).2 := by
  intro sel items
  induction sel, items using travGo.induct world loaded isSel recurse with
  | case1 sel =>
      intro _ d cs2 hd
      rw [travGo.eq_1] at hd
      simp at hd
  | case2 sel nm p0 ch sh rest ih =>
      intro hok d cs2 hd q hq
      rw [travGoOk.eq_2] at hok
      rw [travGo.eq_2] at hd ⊢
      rcases List.mem_cons.mp hd with hd | hd
      · exact TravEvent.noConfusion hd
      · obtain ⟨res, hres⟩ := ih hok d cs2 hd q hq
        exact ⟨res, List.mem_cons_of_mem _ hres⟩
  | case3 sel nm p0 ch sh rest hcond cs hw r1 ih =>
      intro hok d cs2 hd q hq
      rw [travGoOk_cons_dir] at hok
      simp only [hcond, hw, eq_self_iff_true, if_true, Bool.and_eq_true] at hok
      obtain ⟨hokcs, hokrest⟩ := hok
      rw [travGo_cons_dir] at hd ⊢
      simp only [hcond, hw, eq_self_iff_true, if_true] at hd ⊢
      rcases List.mem_cons.mp hd with hd | hd
      · simp only [TravEvent.fetchDir.injEq] at hd
        obtain ⟨rfl, hcs⟩ := hd
        rw [Option.some.injEq] at hcs
        subst hcs
        obtain ⟨res, hres⟩ := hrecFetch sel cs2 hokcs q hq
        exact ⟨res, List.mem_cons_of_mem _ (List.mem_append_left _ hres)⟩
      · rcases List.mem_append.mp hd with hd | hd
        · obtain ⟨res, hres⟩ := hrecClosed sel cs hokcs d cs2 hd q hq
          exact ⟨res, List.mem_cons_of_mem _ (List.mem_append_left _ hres)⟩
        · obtain ⟨res, hres⟩ := ih hokrest d cs2 hd q hq
          exact ⟨res, List.mem_cons_of_mem _ (List.mem_append_right _ hres)⟩
  | case4 sel nm p0 ch sh rest hcond hw ih =>
      intro hok d cs2 hd q hq
      rw [travGoOk_cons_dir] at hok
      simp only [hcond, hw, eq_self_iff_true, if_true, Bool.true_and] at hok
      rw [travGo_cons_dir] at hd ⊢
      simp only [hcond, hw, eq_self_iff_true, if_true] at hd ⊢
      rcases List.mem_cons.mp hd with hd | hd
      · simp at hd
      · obtain ⟨res, hres⟩ := ih hok d cs2 hd q hq
        exact ⟨res, List.mem_cons_of_mem _ hres⟩
  | case5 sel nm p0 sh rest cs r1 hcond ih1 ih2 =>
      intro hok d cs2 hd q hq
      rw [travGoOk_cons_dir, if_neg hcond, Bool.and_eq_true] at hok
      obtain ⟨hokcs, hokrest⟩ := hok
      rw [travGo_cons_dir, if_neg hcond] at hd ⊢
      rcases List.mem_append.mp hd with hd | hd
      · obtain ⟨res, hres⟩ := ih1 hokcs d cs2 hd q hq
        exact ⟨res, List.mem_append_left _ hres⟩
      · obtain ⟨res, hres⟩ := ih2 hokrest d cs2 hd q hq
        exact ⟨res, List.mem_append_right _ hres⟩
  | case6 sel nm p0 sh rest hcond ih =>
      intro hok d cs2 hd q hq
      rw [travGoOk_cons_dir, if_neg hcond] at hok
      simp only [Bool.true_and] at hok
      rw [travGo_cons_dir, if_neg hcond] at hd ⊢
      exact ih hok d cs2 hd q hq

/-- Fuelled traversal never emits commit. -/
theorem travList_no_commit (world : String → Option (List FileNode))
    (loaded : String → Bool) (isSel : Bool) :
    ∀ (fuel : Nat) (sel : SelMap) (items : List FileNode),
      TravEvent.commit ∉ (travList world loaded isSel fuel sel items).2 := by
  intro fuel
  induction fuel with
  | zero =>
      intro sel items
      exact travGo_no_commit world loaded isSel _ (fun s cs => by simp) sel items
  | succ n ih =>
      intro sel items
      exact travGo_no_commit world loaded isSel _ (fun s cs => ih s cs) sel items

/-- Fuelled traversal obeys the fetch-before-flag discipline. -/
theorem travList_traceOk (world : String → Option (List FileNode))
    (loaded : String → Bool) (isSel : Bool) :
    ∀ (fuel : Nat) (sel : SelMap) (items : List FileNode) (K : List String),
      (∀ p ∈ nodesFilePaths items, p ∈ K) →
      traceOk K (travList world loaded isSel fuel sel items).2 := by
  intro fuel
  induction fuel with
  | zero =>
      intro sel items K hK
      exact travGo_traceOk world loaded isSel (fun s _ => (s, []))
        (fun s cs K2 _ => trivial) sel items K hK
  | succ n ih =>
      intro sel items K hK
      exact travGo_traceOk world loaded isSel _
        (fun s cs K2 h2 => ih s cs K2 h2) sel items K hK

/-- Fuelled traversal turns a flag true only for known or delivered
files. -/
theorem travList_sel_true (world : String → Option (List FileNode))
    (loaded : String → Bool) (isSel : Bool) :
    ∀ (fuel : Nat) (sel : SelMap) (items : List FileNode) (p : String),
      lookupFlag (travList world loaded isSel fuel sel items).1 p = some true →
      lookupFlag sel p = some true ∨ p ∈ nodesFilePaths items ∨
        p ∈ deliveredFiles (travList world loaded isSel fuel sel items).2 := by
  intro fuel
  induction fuel with
  | zero =>
      intro sel items p h
      exact travGo_sel_true world loaded isSel _
        (fun s cs q hq => Or.inl hq) sel items p h
  | succ n ih =>
      intro sel items p h
      exact travGo_sel_true world loaded isSel _
        (fun s cs q hq => ih s cs q hq) sel items p h

/-- Fuelled traversal attempts every unfetched directory of the visible
forest, at any depth, for every fuel. -/
theorem travList_fetches_all (world : String → Option (List FileNode))
    (loaded : String → Bool) (isSel : Bool) :
    ∀ (fuel : Nat) (sel : SelMap) (items : List FileNode) (p : String),
      p ∈ unfetchedDirs loaded isSel items →
      ∃ res, TravEvent.fetchDir p res ∈
        (travList world loaded isSel fuel sel items).2 := by
  intro fuel
  cases fuel with
  | zero =>
      exact travGo_fetches_unfetchedDirs world loaded isSel (fun s _ => (s, []))
  | succ n =>
      exact travGo_fetches_unfetchedDirs world loaded isSel
        (travList world loaded isSel n)

/-- Closure of a complete fuelled traversal: every listing delivered by a
fetch event of the trace has its own unfetched directories fetched in the
same trace. -/
theorem travList_trace_closed (world : String → Option (List FileNode))
    (loaded : String → Bool) (isSel : Bool) :
    ∀ (fuel : Nat) (sel : SelMap) (items : List FileNode),
      travListOk world loaded isSel fuel items = true →
      ∀ d cs2, TravEvent.fetchDir d (some cs2) ∈
        (travList world loaded isSel fuel sel items).2 →
      ∀ q ∈ unfetchedDirs loaded isSel cs2,
        ∃ res, TravEvent.fetchDir q res ∈
          (travList world loaded isSel fuel sel items).2 := by
  intro fuel
  induction fuel with
  | zero =>
      exact travGo_trace_closed world loaded isSel (fun s _ => (s, []))
        (fun _ => false)
        (fun s cs h => absurd h (by simp))
        (fun s cs h => absurd h (by simp))
  | succ n ih =>
      exact travGo_trace_closed world loaded isSel
        (travList world loaded isSel n) (travListOk world loaded isSel n)
        (fun s cs _ q hq => travList_fetches_all world loaded isSel n s cs q hq)
        (fun s cs hok d cs2 hd q hq => ih s cs hok d cs2 hd q hq)

/-- C4: selecting a subtree with `selected = true` commits the aggregate
selection only after the traversal (the commit event is strictly last); a
descendant file flag is set only once its containing listing is known —
at the start or delivered by an earlier fetch event of the same trace;
after completion every newly-true flag belongs to a file of the initial
forest or of a delivered listing, so no file is left
unfetched-but-selected; every unfetched directory of the visible forest,
at any depth, gets a fetch attempt; and in a complete traversal (the fuel
never truncated a fetched-subtree descent — the source recursion is
unbounded, so every terminating source run is such a traversal) every
listing delivered by a fetch has its own unfetched directories fetched in
the same trace, so every unfetched descendant directory at any depth,
visible or delivered, is fetched before the commit. -/
theorem toggleFolderSelection_select_fetches_first
    (world : String → Option (List FileNode)) (loaded : String → Bool)
    (sel : SelMap) (nodes : List FileNode) (fuel : Nat) :
    (∃ t, (toggleFolderSelection world loaded sel nodes true fuel).2
        = t ++ [TravEvent.commit] ∧ TravEvent.commit ∉ t) ∧
    traceOk (nodesFilePaths nodes)
      (toggleFolderSelection world loaded sel nodes true fuel).2 ∧
    (∀ p, lookupFlag (toggleFolderSelection world loaded sel nodes true fuel).1 p
        = some true →
      lookupFlag sel p = some true ∨ p ∈ nodesFilePaths nodes ∨
        p ∈ deliveredFiles
          (toggleFolderSelection world loaded sel nodes true fuel).2) ∧
    (∀ p ∈ unfetchedDirs loaded true nodes,
      ∃ res, TravEvent.fetchDir p res ∈
        (toggleFolderSelection world loaded sel nodes true fuel).2) ∧
    (travListOk world loaded true fuel nodes = true →
      ∀ d cs, TravEvent.fetchDir d (some cs) ∈
        (toggleFolderSelection world loaded sel nodes true fuel).2 →
      ∀ p ∈ unfetchedDirs loaded true cs,
        ∃ res, TravEvent.fetchDir p res ∈
          (toggleFolderSelection world loaded sel nodes true fuel).2) := by
  refine ⟨?_, ?_, ?_, ?_, ?_⟩
  · exact ⟨(travList world loaded true fuel sel nodes).2, rfl,
      travList_no_commit world loaded true fuel sel nodes⟩
  · apply traceOk_append
    · exact travList_traceOk world loaded true fuel sel nodes _ (fun p hp => hp)
    · trivial
  · intro p h
    rcases travList_sel_true world loaded true fuel sel nodes p h with h1 | h1 | h1
    · exact Or.inl h1
    · exact Or.inr (Or.inl h1)
    · refine Or.inr (Or.inr ?_)
      show p ∈ deliveredFiles ((travList world loaded true fuel sel nodes).2
        ++ [TravEvent.commit])
      rw [deliveredFiles_append]
      exact List.mem_append_left _ h1
  · intro p hp
    obtain ⟨res, hres⟩ := travList_fetches_all world loaded true fuel sel nodes p hp
    exact ⟨res, List.mem_append_left _ hres⟩
  · intro hok d cs hd p hp
    have hd2 : TravEvent.fetchDir d (some cs) ∈
        (travList world loaded true fuel sel nodes).2 := by
      rcases List.mem_append.mp hd with hd | hd
      · exact hd
      · rw [List.mem_singleton] at hd
        exact TravEvent.noConfusion hd
    obtain ⟨res, hres⟩ :=
      travList_trace_closed world loaded true fuel sel nodes hok d cs hd2 p hp
    exact ⟨res, List.mem_append_left _ hres⟩

/-- Witness for C4 at a concrete run: the visible forest has an unfetched
directory whose fetched listing contains a further unfetched directory;
both are fetched, the second through the closure of the complete
traversal. -/
theorem toggleFolderSelection_select_fetches_first_witness :
    (∃ res, TravEvent.fetchDir "src" res ∈
      (toggleFolderSelection
        (fun p => if p = "src"
          then some [FileNode.mk "sub" "src/sub" .dir (some []) none]
          else if p = "src/sub" then some [] else none)
        (fun _ => false) []
        [FileNode.mk "src" "src" .dir (some []) none] true 2).2) ∧
    (∃ res, TravEvent.fetchDir "src/sub" res ∈
      (toggleFolderSelection
        (fun p => if p = "src"
          then some [FileNode.mk "sub" "src/sub" .dir (some []) none]
          else if p = "src/sub" then some [] else none)
        (fun _ => false) []
        [FileNode.mk "src" "src" .dir (some []) none] true 2).2) :=
  ⟨(toggleFolderSelection_select_fetches_first
      (fun p => if p = "src"
        then some [FileNode.mk "sub" "src/sub" .dir (some []) none]
        else if p = "src/sub" then some [] else none)
      (fun _ => false) []
      [FileNode.mk "src" "src" .dir (some []) none] 2).2.2.2.1 "src"
      (by simp [unfetchedDirs, needsFetch]),
   (toggleFolderSelection_select_fetches_first
      (fun p => if p = "src"
        then some [FileNode.mk "sub" "src/sub" .dir (some []) none]
        else if p = "src/sub" then some [] else none)
      (fun _ => false) []
      [FileNode.mk "src" "src" .dir (some []) none] 2).2.2.2.2
      (by simp [travListOk, travGoOk, needsFetch])
      "src" [FileNode.mk "sub" "src/sub" .dir (some []) none]
      (by simp [toggleFolderSelection, travList, travGo, needsFetch])
      "src/sub"
      (by simp [unfetchedDirs, needsFetch])⟩

end Repodocs
